import Mathlib

/-!
Verification of the Electron Community Hub backend (`server.js`): a shallow
embedding of the SQLite-backed Express handlers for plugins, tags,
plugin-tag links and issues, together with proofs about the tagging
subsystem, validation and the listing endpoints.

Modelling conventions:
* SQLite tables are lists of rows plus the `AUTOINCREMENT` counter (SQLite
  assigns row ids starting from 1); `CURRENT_TIMESTAMP` is an abstract clock
  carried in the database state.
* SQLite `REAL` values are modelled exactly as rationals.
* A JavaScript string field of a request body is `Option String`, `none`
  standing for a missing (`undefined`/`null`) field; the JS falsy test `!s`
  holds for `none` and for the empty string.
* The `sqlite3` connection executes queued statements first-in first-out;
  the asynchronous tag loop of `POST /api/plugins` is modelled as a small
  machine stepping through that queue (`Op`, `MState`, `step`).
-/

namespace Hub

/-- A row of the `plugins` table: `id INTEGER PRIMARY KEY AUTOINCREMENT`
plus the four `NOT NULL` payload columns. -/
structure Plugin where
  id : Nat
  name : String
  author : String
  version : String
  rating : Rat
deriving Repr, DecidableEq

/-- A row of the `tags` table: `id INTEGER PRIMARY KEY AUTOINCREMENT`,
`name TEXT NOT NULL UNIQUE`. -/
structure TagRow where
  id : Nat
  name : String
deriving Repr, DecidableEq

/-- A row of the `issues` table; `created_at TEXT DEFAULT CURRENT_TIMESTAMP`
is filled by the storage layer, modelled as an abstract clock value. -/
structure IssueRow where
  id : Nat
  title : String
  severity : String
  status : String
  created_at : Nat
deriving Repr, DecidableEq

/-- The state of `database.db`: the tables the claims touch, their
`AUTOINCREMENT` counters, and the clock feeding `CURRENT_TIMESTAMP`.  The
`faqs` table plays no part in any claim and is omitted. -/
structure DB where
  plugins : List Plugin
  pluginsNext : Nat
  tags : List TagRow
  tagsNext : Nat
  pluginTags : List (Nat × Nat)
  issues : List IssueRow
  issuesNext : Nat
  now : Nat
deriving Repr, DecidableEq

/-- A freshly created `database.db`: empty tables, row-id counters at 1. -/
def DB.empty : DB :=
  { plugins := [], pluginsNext := 1, tags := [], tagsNext := 1,
    pluginTags := [], issues := [], issuesNext := 1, now := 0 }

/-- JS falsy test `!s` on a string-valued body or query field: true for a
missing field and for the empty string. -/
def jsMissingOrEmpty : Option String → Bool
  | none => true
  | some s => s == ""

/-- `String.prototype.trim()`: strip leading and trailing whitespace.
(Defined by structural recursion so that concrete instances evaluate.) -/
def jsTrim (s : String) : String :=
  ⟨((s.data.dropWhile Char.isWhitespace).reverse.dropWhile Char.isWhitespace).reverse⟩

/-- The result of the source's `Number(rating)` coercion: `NaN` or an
actual numeric value. -/
inductive JsNum where
  | nan : JsNum
  | num : Rat → JsNum
deriving Repr, DecidableEq

/-- The `tags` field of a plugin-creation body.  `arr` holds the elements
after `tags.map((t) => String(t))`; `notArray` models any present value for
which `Array.isArray(tags)` is false (a single string, an object, a
number, …); `absent` models an omitted field. -/
inductive TagsField where
  | absent : TagsField
  | notArray : TagsField
  | arr : List String → TagsField
deriving Repr, DecidableEq

/-- A `POST /api/plugins` body, restricted to the fields the handler
destructures.  `rating = none` models `rating == null`. -/
structure PluginReq where
  name : Option String
  author : Option String
  version : Option String
  rating : Option JsNum
  tags : TagsField
deriving Repr, DecidableEq

/-- A `POST /api/issues` body.  `severity`/`status` are `none` when the
field is absent, in which case the destructuring defaults apply.  The
`created_at` field may be supplied by a client but is never destructured by
the handler. -/
structure IssueReq where
  title : Option String
  severity : Option String
  status : Option String
  created_at : Option Nat
deriving Repr, DecidableEq

/-- The JSON responses the handlers send (paired with their HTTP status:
400 for `badRequest`, 201 for the `created*` forms, 500 for
`serverError`). -/
inductive Resp where
  | badRequest : String → Resp
  | createdPlugin : String → Nat → Resp
  | createdIssue : IssueRow → Resp
  | serverError : String → Resp
deriving Repr, DecidableEq

/-- `SELECT id FROM tags WHERE name = ?`: the id of the first row whose
`name` matches. -/
def findTag (db : DB) (name : String) : Option Nat :=
  (db.tags.find? fun t => t.name == name).map fun t => t.id

/-- `INSERT INTO tags (name) VALUES (?)` on the raw table under the
`UNIQUE` constraint on `name`: `none` when a row with this name exists
(constraint violation), otherwise the new table, the bumped counter and
`this.lastID`. -/
def insertTagT (ts : List TagRow) (next : Nat) (name : String) :
    Option (List TagRow × Nat × Nat) :=
  if ∃ t ∈ ts, t.name = name then none
  else some (ts ++ [⟨next, name⟩], next + 1, next)

/-- `INSERT INTO tags (name) VALUES (?)` on the database state. -/
def insertTagRow (db : DB) (name : String) : Option (DB × Nat) :=
  (insertTagT db.tags db.tagsNext name).map fun x =>
    ({ db with tags := x.1, tagsNext := x.2.1 }, x.2.2)

/-- `INSERT OR IGNORE INTO plugin_tags (plugin_id, tag_id) VALUES (?, ?)`
with `PRIMARY KEY (plugin_id, tag_id)`: append the pair when absent, leave
the table unchanged when present. -/
def insertLinkRow (db : DB) (pluginId tagId : Nat) : DB :=
  if (pluginId, tagId) ∈ db.pluginTags then db
  else { db with pluginTags := db.pluginTags ++ [(pluginId, tagId)] }

/-- `linkPluginTag` (source lines 445–456): the JS falsy guard
`if (!pluginId || !tagId) return;` followed by the `INSERT OR IGNORE`. -/
def linkPluginTag (db : DB) (pluginId tagId : Nat) : DB :=
  if pluginId = 0 ∨ tagId = 0 then db
  else insertLinkRow db pluginId tagId

/-- `ensureTagExists` (source lines 414–440) as one sequential resolution
attempt, with an interference function `mid` applied to the database
between the `db.get` lookup and the `db.run` insert — modelling writes
committed by a concurrent request on the shared connection (`mid = id`
recovers an isolated run).  On an insert failure — in this model only the
`UNIQUE` violation — the source logs and invokes the callback with `null`,
modelled as `none`. -/
def ensureTagExistsWith (mid : DB → DB) (db : DB) (tagName : String) :
    DB × Option Nat :=
  let trimmed := jsTrim tagName
  if trimmed = "" then (db, none)
  else
    match findTag db trimmed with
    | some id => (db, some id)
    | none =>
      let db2 := mid db
      match insertTagRow db2 trimmed with
      | some x => (x.1, some x.2)
      | none => (db2, none)

/-- A statement queued on the shared connection by the `POST /api/plugins`
tag loop.  `getTag`/`insTag` are the two halves of `ensureTagExists`, each
finishing by running the handler's per-tag callback; `insLink` is the write
issued by `linkPluginTag`, which has no continuation. -/
inductive Op where
  | getTag : String → Op
  | insTag : String → Op
  | insLink : Nat → Nat → Op
deriving Repr, DecidableEq

/-- The in-flight state of one `POST /api/plugins` tag loop: the database,
the created plugin's id, the connection's FIFO statement queue, the
handler's `pending` counter, and the response once `res` has been called. -/
structure MState where
  db : DB
  pluginId : Nat
  queue : List Op
  pending : Nat
  response : Option Resp
deriving Repr, DecidableEq

/-- The link pair the per-tag callback issues for a resolved tag id:
`if (tagId)` in the callback and `if (!pluginId || !tagId) return;` inside
`linkPluginTag`. -/
def linkIssued (pluginId tagId : Nat) : List (Nat × Nat) :=
  if tagId ≠ 0 then
    if pluginId = 0 ∨ tagId = 0 then [] else [(pluginId, tagId)]
  else []

/-- The queued statement for a link pair. -/
def toLinkOp (pr : Nat × Nat) : Op := Op.insLink pr.1 pr.2

/-- The per-tag callback of the `POST /api/plugins` handler (source lines
541–553): issue the link write when the id is truthy, decrement `pending`,
and send the 201 response when `pending` reaches zero. -/
def tagDone (s : MState) (tagId : Option Nat) : MState :=
  let q := match tagId with
    | some t => s.queue ++ (linkIssued s.pluginId t).map toLinkOp
    | none => s.queue
  let pending := s.pending - 1
  let response :=
    if pending = 0 then
      some (Resp.createdPlugin "Plugin successfully added" s.pluginId)
    else s.response
  { s with queue := q, pending := pending, response := response }

/-- One completion on the connection's FIFO queue: pop the head statement,
apply it to the database and run its callback. -/
def step (s : MState) : MState :=
  match s.queue with
  | [] => s
  | op :: rest =>
    let s' := { s with queue := rest }
    match op with
    | Op.getTag name =>
      match findTag s'.db name with
      | some id => tagDone s' (some id)
      | none => { s' with queue := s'.queue ++ [Op.insTag name] }
    | Op.insTag name =>
      match insertTagRow s'.db name with
      | some x => tagDone { s' with db := x.1 } (some x.2)
      | none => tagDone s' none
    | Op.insLink a b => { s' with db := insertLinkRow s'.db a b }

/-- `n` completions in order. -/
def stepN : Nat → MState → MState
  | 0, s => s
  | n + 1, s => stepN n (step s)

/-- Fuel measure: a `getTag` can spawn an `insTag` or an `insLink`, an
`insTag` can spawn an `insLink`, an `insLink` spawns nothing. -/
def opWeight : Op → Nat
  | Op.getTag _ => 3
  | Op.insTag _ => 2
  | Op.insLink _ _ => 1

def queueWeight (q : List Op) : Nat := (q.map opWeight).sum

/-- Drain the queue: `queueWeight` strictly decreases at every non-idle
step, so this much fuel always reaches the quiescent state. -/
def runQueue (s : MState) : MState := stepN (queueWeight s.queue) s

/-- The synchronous part of the tag loop (source lines 539–554):
`let pending = tagList.length`, then `forEach` calls `ensureTagExists`,
which for an empty-after-trim name invokes the callback synchronously and
otherwise queues the `SELECT` on the connection. -/
def startTagsStep (s : MState) (tagName : String) : MState :=
  let trimmed := jsTrim tagName
  if trimmed = "" then tagDone s none
  else { s with queue := s.queue ++ [Op.getTag trimmed] }

def startTags (db : DB) (pluginId : Nat) (tagList : List String) : MState :=
  tagList.foldl startTagsStep
    { db := db, pluginId := pluginId, queue := [], pending := tagList.length,
      response := none }

/-- `let tagList = Array.isArray(tags) ? tags.map(String) : []` (source
lines 507–511). -/
def tagListOf : TagsField → List String
  | TagsField.arr l => l
  | _ => []

/-- `!(Number.isNaN(r) || r < 0 || r > 5)` after `Number(rating)`. -/
def ratingOk : Option JsNum → Bool
  | some (JsNum.num q) => decide (0 ≤ q ∧ q ≤ 5)
  | _ => false

/-- The numeric value stored for a rating that passed validation. -/
def ratingVal : Option JsNum → Rat
  | some (JsNum.num q) => q
  | _ => 0

/-- The row `INSERT INTO plugins (name, author, version, rating)` writes
for a validated request (the handler trims the three text fields). -/
def pluginRowOf (db : DB) (r : PluginReq) : Plugin :=
  { id := db.pluginsNext, name := jsTrim (r.name.getD ""),
    author := jsTrim (r.author.getD ""), version := jsTrim (r.version.getD ""),
    rating := ratingVal r.rating }

/-- The database right after the plugin row insert of a validated
`POST /api/plugins` request. -/
def dbAfterPluginInsert (db : DB) (r : PluginReq) : DB :=
  { db with plugins := db.plugins ++ [pluginRowOf db r],
            pluginsNext := db.pluginsNext + 1 }

/-- The connection-queue state at the start of the tag loop of a validated
`POST /api/plugins` request: the plugin row is in, `this.lastID` is the
plugin id, and the loop has queued its lookups. -/
def postPluginStart (db : DB) (r : PluginReq) : MState :=
  startTags (dbAfterPluginInsert db r) db.pluginsNext (tagListOf r.tags)

/-- `POST /api/plugins` (source lines 490–557): validation, the plugin row
insert, then either the immediate no-tags 201 or the tag loop run to
quiescence on the connection queue.  The response component is the reply
`res` last sent, or `none` if the handler never reached `res`. -/
def postPlugin (db : DB) (r : PluginReq) : DB × Option Resp :=
  if jsMissingOrEmpty r.name || jsMissingOrEmpty r.author ||
      jsMissingOrEmpty r.version || r.rating.isNone then
    (db, some (Resp.badRequest "Please provide name, author, version, and rating."))
  else if !ratingOk r.rating then
    (db, some (Resp.badRequest "Rating must be a number between 0 and 5."))
  else if (tagListOf r.tags).isEmpty then
    (dbAfterPluginInsert db r,
     some (Resp.createdPlugin "Plugin successfully added (no tags)." db.pluginsNext))
  else
    let sf := runQueue (postPluginStart db r)
    (sf.db, sf.response)

/-- SQLite `BINARY` collation on `TEXT`: bytewise comparison, which for
valid UTF-8 coincides with lexicographic comparison of the code points. -/
def strLeB : List Char → List Char → Bool
  | [], _ => true
  | _ :: _, [] => false
  | a :: as, b :: bs =>
    if a.toNat < b.toNat then true
    else if b.toNat < a.toNat then false
    else strLeB as bs

/-- `name ASC` under the `BINARY` collation. -/
def strLE (a b : String) : Prop := strLeB a.data b.data = true

instance : DecidableRel strLE := fun a b => by
  unfold strLE; exact inferInstance

/-- The comparison implementing `ORDER BY rating DESC, name ASC`. -/
def pluginLE (a b : Plugin) : Prop :=
  b.rating < a.rating ∨ (a.rating = b.rating ∧ strLE a.name b.name)

instance : DecidableRel pluginLE := fun a b => by
  unfold pluginLE; exact inferInstance

/-- `GET /api/plugins` (source lines 467–477):
`SELECT * FROM plugins ORDER BY rating DESC, name ASC`. -/
def getPlugins (db : DB) : List Plugin := List.insertionSort pluginLE db.plugins

/-- The comparison implementing `ORDER BY datetime(created_at) DESC`. -/
def issueLE (a b : IssueRow) : Prop := b.created_at ≤ a.created_at

instance : DecidableRel issueLE := fun a b => by
  unfold issueLE; exact inferInstance

/-- The `WHERE` clause built by `GET /api/issues`: `severity = ?` when the
`severity` query value is truthy, `status = ?` when `status` is truthy,
combined by `AND`. -/
def issueMatches (severity status : Option String) (i : IssueRow) : Bool :=
  (if jsMissingOrEmpty severity then true else i.severity == severity.getD "") &&
  (if jsMissingOrEmpty status then true else i.status == status.getD "")

/-- `GET /api/issues` (source lines 585–610). -/
def getIssues (db : DB) (severity status : Option String) : List IssueRow :=
  List.insertionSort issueLE (db.issues.filter (issueMatches severity status))

/-- The row `INSERT INTO issues (title, severity, status)` writes: the
trimmed title, the destructuring defaults, and `created_at` filled by the
storage layer from the clock (the insert names no `created_at` column). -/
def issueRowOf (db : DB) (r : IssueReq) : IssueRow :=
  { id := db.issuesNext, title := jsTrim (r.title.getD ""),
    severity := r.severity.getD "low", status := r.status.getD "open",
    created_at := db.now }

/-- `POST /api/issues` (source lines 621–656): `!title` validation, the
insert, then `SELECT * FROM issues WHERE id = ?` with `this.lastID` and the
201 echo of the fetched row. -/
def postIssue (db : DB) (r : IssueReq) : DB × Option Resp :=
  if jsMissingOrEmpty r.title then
    (db, some (Resp.badRequest "Please provide a title for the issue."))
  else
    let row := issueRowOf db r
    let db1 := { db with issues := db.issues ++ [row],
                         issuesNext := db.issuesNext + 1 }
    match db1.issues.find? fun i => i.id == row.id with
    | some fetched => (db1, some (Resp.createdIssue fetched))
    | none => (db1, some (Resp.serverError "Issue created but fetch failed"))

/-- Number of outstanding tag resolutions in a queue: each `getTag` or
`insTag` completion runs the per-tag callback exactly once; `insLink`
completions run no callback. -/
def resolutionOps (q : List Op) : Nat :=
  (q.filter fun op => match op with
    | Op.getTag _ => true
    | Op.insTag _ => true
    | Op.insLink _ _ => false).length

/-- The response invariant of the tag loop: the `pending` counter counts
exactly the outstanding resolutions, and the response is only ever sent
once `pending` has reached zero. -/
def respInv (s : MState) : Prop :=
  resolutionOps s.queue = s.pending ∧
  (s.response.isSome = true → s.pending = 0)

/-- The statements generated while the `getTag` block at the head of the
queue drains: every lookup runs against the database as it was when the
block was queued, because neither lookups nor link writes modify `tags`. -/
def genA (db : DB) (p : Nat) : List String → List Op
  | [] => []
  | n :: ns =>
    (match findTag db n with
      | some id => (linkIssued p id).map toLinkOp
      | none => [Op.insTag n]) ++ genA db p ns

/-- Sequential summary of a `getTag`-free queue: the evolution of the
`tags` table and counter, plus the pairs handed to `INSERT OR IGNORE` in
execution order. -/
def specB (p : Nat) : List TagRow → Nat → List Op → (List TagRow × Nat) × List (Nat × Nat)
  | ts, nx, [] => ((ts, nx), [])
  | ts, nx, Op.getTag _ :: rest => specB p ts nx rest
  | ts, nx, Op.insTag n :: rest =>
    match insertTagT ts nx n with
    | some x =>
      let y := specB p x.1 x.2.1 rest
      (y.1, linkIssued p x.2.2 ++ y.2)
    | none => specB p ts nx rest
  | ts, nx, Op.insLink a b :: rest =>
    let y := specB p ts nx rest
    (y.1, (a, b) :: y.2)

/-- End-to-end summary of the tag loop on name list `ns`: lookups against
the snapshot `snap` (the table as the loop queued its block), inserts
against the evolving table. -/
def pipelineT (snap : DB) (p : Nat) : List TagRow → Nat → List String → (List TagRow × Nat) × List (Nat × Nat)
  | ts, nx, [] => ((ts, nx), [])
  | ts, nx, n :: ns =>
    match findTag snap n with
    | some id =>
      let y := pipelineT snap p ts nx ns
      (y.1, linkIssued p id ++ y.2)
    | none =>
      match insertTagT ts nx n with
      | some x =>
        let y := pipelineT snap p x.1 x.2.1 ns
        (y.1, linkIssued p x.2.2 ++ y.2)
      | none => pipelineT snap p ts nx ns

/-- The id the final `tags` table assigns to a name (0 when absent). -/
def idOfName (ts : List TagRow) (nm : String) : Nat :=
  ((ts.find? fun t => t.name == nm).map fun t => t.id).getD 0

/-- `SELECT id FROM tags WHERE name = ?` on a raw table. -/
def findTagT (ts : List TagRow) (nm : String) : Option Nat :=
  (ts.find? fun t => t.name == nm).map fun t => t.id

/-- A queue containing no pending `SELECT` of the tag loop. -/
def noGetTag (q : List Op) : Prop := ∀ nm, Op.getTag nm ∉ q

/-- The trimmed, non-empty tag names of a request's tag list, in order,
duplicates kept. -/
def trimmedNames (l : List String) : List String :=
  (l.map jsTrim).filter fun nm => nm ≠ ""

/-- The concurrent writer of the C1 race: another request's resolver
committing the tag `"ui"` between this resolver's lookup and its insert. -/
def raceInsertUi (db : DB) : DB :=
  match insertTagRow db "ui" with
  | some x => x.1
  | none => db

/-- A creation request with rating 5.1 (and no tags). -/
def reqRating (q : Rat) : PluginReq :=
  { name := some "My Plugin", author := some "Someone", version := some "1.0.0",
    rating := some (JsNum.num q), tags := TagsField.absent }

/-- A creation request for plugin `nm` tagged `"debug"`. -/
def reqDebug (nm : String) : PluginReq :=
  { name := some nm, author := some "Someone", version := some "1.0.0",
    rating := some (JsNum.num 4), tags := TagsField.arr ["debug"] }

/-- A `POST /api/issues` body with a title only (plus a client-supplied
`created_at`, which the handler never reads). -/
def reqIssue7 : IssueReq :=
  { title := some "Crash on open", severity := none, status := none,
    created_at := some 999 }

/-- A `POST /api/issues` body whose title is whitespace only. -/
def reqIssue10 : IssueReq :=
  { title := some "   ", severity := none, status := none, created_at := none }

/-- A creation request whose tag list contains duplicates. -/
def reqC3 : PluginReq :=
  { name := some "p", author := some "a", version := some "v",
    rating := some (JsNum.num 3), tags := TagsField.arr ["ui", "ui", "debug"] }

/-- A store with two plugins of equal rating, for exercising the
name tie-break of the plugin listing. -/
def dbW8 : DB :=
  { plugins := [⟨1, "zoom", "x", "1.0", 5⟩, ⟨2, "atom", "x", "1.0", 5⟩],
    pluginsNext := 3, tags := [], tagsNext := 1, pluginTags := [],
    issues := [], issuesNext := 1, now := 0 }

/-- A store with two issues, for exercising the issue filters. -/
def dbI6 : DB :=
  { plugins := [], pluginsNext := 1, tags := [], tagsNext := 1,
    pluginTags := [],
    issues := [⟨1, "crash", "high", "open", 1⟩, ⟨2, "typo", "low", "open", 2⟩],
    issuesNext := 3, now := 5 }

/-!  ## Helper lemmas  -/

theorem findTag_isSome_iff (db : DB) (nm : String) :
    (findTag db nm).isSome = true ↔ ∃ t ∈ db.tags, t.name = nm := by
  simp [findTag, List.find?_isSome]

theorem find_fresh (l : List IssueRow) (row : IssueRow)
    (h : ∀ i ∈ l, i.id ≠ row.id) :
    (l ++ [row]).find? (fun i => i.id == row.id) = some row := by
  rw [List.find?_append]
  have hnone : l.find? (fun i => i.id == row.id) = none := by
    rw [List.find?_eq_none]
    intro x hx
    simpa using h x hx
  rw [hnone]
  simp

/-!  ## Claims C1 and C4: the tag resolver race and the linker  -/

/-- Claim C1 (counterexample): starting from an empty store, resolving
`"ui"` while a concurrent request commits the tag `"ui"` between the
lookup and the insert is a genuine uniqueness race — yet the resolver
returns `none` to its caller instead of re-fetching the existing row's id
`1`, so the caller does not receive a valid tag id and no link is
attempted. -/
theorem C1_counterexample :
    findTag DB.empty "ui" = none ∧
    findTag (raceInsertUi DB.empty) "ui" = some 1 ∧
    (ensureTagExistsWith raceInsertUi DB.empty "ui").2 = none := by
  refine ⟨by decide, by decide, by decide⟩

/-- Claim C1 (amended): when the tag insert hits the uniqueness violation —
the trimmed name was absent at lookup time but present (concurrently
created) at insert time — `ensureTagExists` invokes its callback with
`null` and does not re-fetch; the caller therefore skips the link for that
tag.  The failure is still not propagated: the call returns normally, with
the interfered database unchanged (in particular no duplicate tag row). -/
theorem C1_amended (mid : DB → DB) (db : DB) (tagName : String)
    (hne : jsTrim tagName ≠ "")
    (h1 : findTag db (jsTrim tagName) = none)
    (h2 : (findTag (mid db) (jsTrim tagName)).isSome = true) :
    ensureTagExistsWith mid db tagName = (mid db, none) := by
  have hex : ∃ t ∈ (mid db).tags, t.name = jsTrim tagName :=
    (findTag_isSome_iff (mid db) (jsTrim tagName)).mp h2
  have hins : insertTagRow (mid db) (jsTrim tagName) = none := by
    unfold insertTagRow insertTagT
    rw [if_pos hex]
    rfl
  unfold ensureTagExistsWith
  simp only [if_neg hne, h1, hins]

theorem C1_amended_witness :
    ensureTagExistsWith raceInsertUi DB.empty "ui" = (raceInsertUi DB.empty, none) :=
  C1_amended raceInsertUi DB.empty "ui" (by decide) (by decide) (by decide)

/-- Claim C4: the plugin-tag linker is idempotent.  For identifiers of
actual rows (SQLite row ids are ≥ 1, hence non-zero): linking an absent
pair appends exactly that one row; linking a present pair changes nothing
and is not an error; linking the same pair twice equals linking it once. -/
theorem C4_linker_idempotent (db : DB) (p t : Nat) (hp : p ≠ 0) (ht : t ≠ 0) :
    ((p, t) ∉ db.pluginTags →
      linkPluginTag db p t = { db with pluginTags := db.pluginTags ++ [(p, t)] }) ∧
    ((p, t) ∈ db.pluginTags → linkPluginTag db p t = db) ∧
    linkPluginTag (linkPluginTag db p t) p t = linkPluginTag db p t := by
  have hor : ¬(p = 0 ∨ t = 0) := by
    rintro (h | h)
    exacts [hp h, ht h]
  refine ⟨fun hmem => ?_, fun hmem => ?_, ?_⟩
  · simp [linkPluginTag, insertLinkRow, hor, hmem]
  · simp [linkPluginTag, insertLinkRow, hor, hmem]
  · by_cases hmem : (p, t) ∈ db.pluginTags
    · simp [linkPluginTag, insertLinkRow, hor, hmem]
    · simp [linkPluginTag, insertLinkRow, hor, hmem]

theorem C4_witness :
    ((1, 1) ∉ DB.empty.pluginTags →
      linkPluginTag DB.empty 1 1 =
        { DB.empty with pluginTags := DB.empty.pluginTags ++ [(1, 1)] }) ∧
    ((1, 1) ∈ DB.empty.pluginTags → linkPluginTag DB.empty 1 1 = DB.empty) ∧
    linkPluginTag (linkPluginTag DB.empty 1 1) 1 1 = linkPluginTag DB.empty 1 1 :=
  C4_linker_idempotent DB.empty 1 1 (by decide) (by decide)

/-!  ## Claims C5 and C9: plugin-creation validation and tag normalization  -/

/-- Claim C5: a plugin-creation request missing `name`, `author`, `version`
or `rating`, or whose rating is not numeric or lies outside `[0, 5]`, is
rejected with 400 and the store is left entirely unchanged; rating `5.1`
is rejected while `5.0` and `0.0` are accepted. -/
theorem C5_plugin_validation (db : DB) (r : PluginReq) :
    ((jsMissingOrEmpty r.name || jsMissingOrEmpty r.author ||
        jsMissingOrEmpty r.version || r.rating.isNone) = true →
      postPlugin db r =
        (db, some (Resp.badRequest "Please provide name, author, version, and rating."))) ∧
    ((jsMissingOrEmpty r.name || jsMissingOrEmpty r.author ||
        jsMissingOrEmpty r.version || r.rating.isNone) = false →
      ratingOk r.rating = false →
      postPlugin db r =
        (db, some (Resp.badRequest "Rating must be a number between 0 and 5."))) ∧
    postPlugin DB.empty (reqRating (mkRat 51 10)) =
      (DB.empty, some (Resp.badRequest "Rating must be a number between 0 and 5.")) ∧
    (postPlugin DB.empty (reqRating 5)).2 =
      some (Resp.createdPlugin "Plugin successfully added (no tags)." 1) ∧
    (postPlugin DB.empty (reqRating 0)).2 =
      some (Resp.createdPlugin "Plugin successfully added (no tags)." 1) := by
  refine ⟨fun h => ?_, fun h hbad => ?_, by decide, by decide, by decide⟩
  · unfold postPlugin
    rw [h]
    rfl
  · unfold postPlugin
    rw [h, hbad]
    rfl

theorem C5_witness :
    postPlugin DB.empty
        { name := none, author := some "a", version := some "v",
          rating := some (JsNum.num 1), tags := TagsField.absent } =
      (DB.empty, some (Resp.badRequest "Please provide name, author, version, and rating.")) ∧
    postPlugin DB.empty
        { name := some "p", author := some "a", version := some "v",
          rating := some JsNum.nan, tags := TagsField.absent } =
      (DB.empty, some (Resp.badRequest "Rating must be a number between 0 and 5.")) :=
  ⟨(C5_plugin_validation DB.empty _).1 (by decide),
   (C5_plugin_validation DB.empty _).2.1 (by decide) (by decide)⟩

/-- Claim C9: a valid plugin-creation request whose `tags` field is present
but not an array succeeds exactly as if no tags were supplied — the plugin
row is created, the `tags` and `plugin_tags` tables are untouched, and the
no-tags 201 response is returned immediately. -/
theorem C9_tags_not_array (db : DB) (r : PluginReq)
    (hname : jsMissingOrEmpty r.name = false)
    (hauthor : jsMissingOrEmpty r.author = false)
    (hversion : jsMissingOrEmpty r.version = false)
    (hrating : ratingOk r.rating = true)
    (htags : r.tags = TagsField.notArray) :
    postPlugin db r =
      (dbAfterPluginInsert db r,
       some (Resp.createdPlugin "Plugin successfully added (no tags)." db.pluginsNext)) ∧
    (dbAfterPluginInsert db r).tags = db.tags ∧
    (dbAfterPluginInsert db r).pluginTags = db.pluginTags ∧
    (dbAfterPluginInsert db r).plugins = db.plugins ++ [pluginRowOf db r] := by
  have hnone : r.rating.isNone = false := by
    cases hr : r.rating with
    | none => rw [hr] at hrating; simp [ratingOk] at hrating
    | some _ => rfl
  refine ⟨?_, rfl, rfl, rfl⟩
  unfold postPlugin
  rw [hname, hauthor, hversion, hnone, hrating, htags]
  rfl

theorem C9_witness :
    postPlugin DB.empty
        { name := some "p", author := some "a", version := some "v",
          rating := some (JsNum.num 3), tags := TagsField.notArray } =
      (dbAfterPluginInsert DB.empty
        { name := some "p", author := some "a", version := some "v",
          rating := some (JsNum.num 3), tags := TagsField.notArray },
       some (Resp.createdPlugin "Plugin successfully added (no tags)." 1)) ∧
    (dbAfterPluginInsert DB.empty
        { name := some "p", author := some "a", version := some "v",
          rating := some (JsNum.num 3), tags := TagsField.notArray }).tags = DB.empty.tags ∧
    (dbAfterPluginInsert DB.empty
        { name := some "p", author := some "a", version := some "v",
          rating := some (JsNum.num 3), tags := TagsField.notArray }).pluginTags = DB.empty.pluginTags ∧
    (dbAfterPluginInsert DB.empty
        { name := some "p", author := some "a", version := some "v",
          rating := some (JsNum.num 3), tags := TagsField.notArray }).plugins =
      DB.empty.plugins ++ [pluginRowOf DB.empty
        { name := some "p", author := some "a", version := some "v",
          rating := some (JsNum.num 3), tags := TagsField.notArray }] :=
  C9_tags_not_array DB.empty _ (by decide) (by decide) (by decide) (by decide) rfl

/-!  ## Claims C7 and C10: issue creation  -/

/-- Claim C7: an issue-creation request with a title but no
`severity`/`status` fields stores `"low"`/`"open"`; for every
issue-creation request the stored `created_at` comes from the storage
clock at insert time and never from the request body, and the 201 response
echoes the full stored row with its assigned id and timestamp. -/
theorem C7_issue_defaults (db : DB) (r : IssueReq)
    (htitle : jsMissingOrEmpty r.title = false)
    (hfresh : ∀ i ∈ db.issues, i.id ≠ db.issuesNext) :
    postIssue db r =
      ({ db with issues := db.issues ++ [issueRowOf db r],
                 issuesNext := db.issuesNext + 1 },
       some (Resp.createdIssue (issueRowOf db r))) ∧
    (issueRowOf db r).created_at = db.now ∧
    (issueRowOf db r).id = db.issuesNext ∧
    (∀ c, issueRowOf db { r with created_at := c } = issueRowOf db r) ∧
    (r.severity = none → (issueRowOf db r).severity = "low") ∧
    (r.status = none → (issueRowOf db r).status = "open") := by
  refine ⟨?_, rfl, rfl, fun c => rfl, fun h => by simp [issueRowOf, h],
    fun h => by simp [issueRowOf, h]⟩
  have hid : (issueRowOf db r).id = db.issuesNext := rfl
  have hfind : (db.issues ++ [issueRowOf db r]).find?
      (fun i => i.id == (issueRowOf db r).id) = some (issueRowOf db r) :=
    find_fresh db.issues (issueRowOf db r) (by rw [hid]; exact hfresh)
  unfold postIssue
  rw [htitle]
  simp only [Bool.false_eq_true, if_false, hfind]

theorem C7_witness :
    postIssue DB.empty reqIssue7 =
      ({ DB.empty with issues := [issueRowOf DB.empty reqIssue7],
                       issuesNext := 2 },
       some (Resp.createdIssue (issueRowOf DB.empty reqIssue7))) ∧
    (issueRowOf DB.empty reqIssue7).created_at = DB.empty.now ∧
    (issueRowOf DB.empty reqIssue7).id = DB.empty.issuesNext ∧
    (issueRowOf DB.empty { reqIssue7 with created_at := none } =
      issueRowOf DB.empty reqIssue7) ∧
    (issueRowOf DB.empty reqIssue7).severity = "low" ∧
    (issueRowOf DB.empty reqIssue7).status = "open" := by
  have h := C7_issue_defaults DB.empty reqIssue7 (by decide)
    (by intro i hi; cases hi)
  exact ⟨h.1, h.2.1, h.2.2.1, h.2.2.2.1 none, h.2.2.2.2.1 rfl, h.2.2.2.2.2 rfl⟩

/-- Claim C10: an issue title consisting only of whitespace (non-empty
before trimming) passes the `!title` presence check, so the request is not
rejected; the row is inserted with the trimmed — empty — title, making an
empty-titled issue reachable through the public interface. -/
theorem C10_whitespace_title (db : DB) (r : IssueReq) (t : String)
    (htitle : r.title = some t) (hne : t ≠ "") (htrim : jsTrim t = "")
    (hfresh : ∀ i ∈ db.issues, i.id ≠ db.issuesNext) :
    postIssue db r =
      ({ db with issues := db.issues ++ [issueRowOf db r],
                 issuesNext := db.issuesNext + 1 },
       some (Resp.createdIssue (issueRowOf db r))) ∧
    (issueRowOf db r).title = "" := by
  have hmiss : jsMissingOrEmpty r.title = false := by
    rw [htitle]
    simpa [jsMissingOrEmpty] using hne
  refine ⟨(C7_issue_defaults db r hmiss hfresh).1, ?_⟩
  simp [issueRowOf, htitle, htrim]

theorem C10_witness :
    postIssue DB.empty reqIssue10 =
      ({ DB.empty with issues := [issueRowOf DB.empty reqIssue10],
                       issuesNext := 2 },
       some (Resp.createdIssue (issueRowOf DB.empty reqIssue10))) ∧
    (issueRowOf DB.empty reqIssue10).title = "" :=
  C10_whitespace_title DB.empty reqIssue10 "   " rfl (by decide) (by decide)
    (by intro i hi; cases hi)

/-!  ## Claims C6 and C8: the listing endpoints  -/

theorem strLeB_cons (a b : Char) (as bs : List Char) :
    strLeB (a :: as) (b :: bs) = true ↔
      a.toNat < b.toNat ∨ (a.toNat = b.toNat ∧ strLeB as bs = true) := by
  have hdef : strLeB (a :: as) (b :: bs) =
      if a.toNat < b.toNat then true
      else if b.toNat < a.toNat then false else strLeB as bs := rfl
  rw [hdef]
  by_cases hab : a.toNat < b.toNat
  · rw [if_pos hab]
    simp [hab]
  · by_cases hba : b.toNat < a.toNat
    · rw [if_neg hab, if_pos hba]
      constructor
      · intro h; simp at h
      · rintro (h | ⟨he, _⟩)
        · exact absurd h hab
        · omega
    · have he : a.toNat = b.toNat :=
        Nat.le_antisymm (Nat.not_lt.mp hba) (Nat.not_lt.mp hab)
      rw [if_neg hab, if_neg hba]
      simp [hab, he]

theorem strLeB_total : ∀ xs ys : List Char, strLeB xs ys = true ∨ strLeB ys xs = true
  | [], _ => Or.inl rfl
  | _ :: _, [] => Or.inr rfl
  | a :: as, b :: bs => by
    rcases Nat.lt_trichotomy a.toNat b.toNat with h | h | h
    · left; rw [strLeB_cons]; exact Or.inl h
    · rcases strLeB_total as bs with hr | hr
      · left; rw [strLeB_cons]; exact Or.inr ⟨h, hr⟩
      · right; rw [strLeB_cons]; exact Or.inr ⟨h.symm, hr⟩
    · right; rw [strLeB_cons]; exact Or.inl h

theorem strLeB_trans : ∀ xs ys zs : List Char, strLeB xs ys = true →
    strLeB ys zs = true → strLeB xs zs = true
  | [], _, _ => fun _ _ => rfl
  | _ :: _, [], _ => fun h _ => by simp [strLeB] at h
  | _ :: _, _ :: _, [] => fun _ h => by simp [strLeB] at h
  | a :: as, b :: bs, c :: cs => fun h1 h2 => by
    rw [strLeB_cons] at h1 h2 ⊢
    rcases h1 with h1 | ⟨he1, hr1⟩ <;> rcases h2 with h2 | ⟨he2, hr2⟩
    · exact Or.inl (Nat.lt_trans h1 h2)
    · exact Or.inl (he2 ▸ h1)
    · exact Or.inl (he1 ▸ h2)
    · exact Or.inr ⟨he1.trans he2, strLeB_trans as bs cs hr1 hr2⟩

instance : IsTotal String strLE where
  total a b := strLeB_total a.data b.data

instance : IsTrans String strLE where
  trans a b c hab hbc := strLeB_trans a.data b.data c.data hab hbc

instance : IsTotal Plugin pluginLE where
  total a b := by
    unfold pluginLE
    rcases lt_trichotomy a.rating b.rating with h | h | h
    · exact Or.inr (Or.inl h)
    · rcases strLeB_total a.name.data b.name.data with hn | hn
      · exact Or.inl (Or.inr ⟨h, hn⟩)
      · exact Or.inr (Or.inr ⟨h.symm, hn⟩)
    · exact Or.inl (Or.inl h)

instance : IsTrans Plugin pluginLE where
  trans a b c hab hbc := by
    unfold pluginLE at *
    rcases hab with hab | ⟨hab, hnab⟩
    · rcases hbc with hbc | ⟨hbc, hnbc⟩
      · exact Or.inl (lt_trans hbc hab)
      · exact Or.inl (hbc ▸ hab)
    · rcases hbc with hbc | ⟨hbc, hnbc⟩
      · exact Or.inl (hab ▸ hbc)
      · exact Or.inr ⟨hab.trans hbc, strLeB_trans _ _ _ hnab hnbc⟩

instance : IsTotal IssueRow issueLE where
  total a b := le_total b.created_at a.created_at

instance : IsTrans IssueRow issueLE where
  trans _ _ _ hab hbc := le_trans hbc hab

/-- Claim C8: `GET /api/plugins` returns all plugin rows ordered by rating
descending with ties broken by name ascending: for positions `i < j`, row
`i` has strictly greater rating, or equal rating and name not greater. -/
theorem C8_plugins_sorted (db : DB) :
    List.Perm (getPlugins db) db.plugins ∧
    ∀ i j : Fin (getPlugins db).length, i < j →
      ((getPlugins db).get j).rating < ((getPlugins db).get i).rating ∨
      (((getPlugins db).get i).rating = ((getPlugins db).get j).rating ∧
        strLE ((getPlugins db).get i).name ((getPlugins db).get j).name) := by
  constructor
  · exact List.perm_insertionSort pluginLE db.plugins
  · intro i j hij
    exact (List.sorted_insertionSort pluginLE db.plugins).rel_get_of_lt hij

theorem C8_witness :
    List.Perm (getPlugins dbW8) dbW8.plugins ∧
    (((getPlugins dbW8).get ⟨1, by decide⟩).rating <
        ((getPlugins dbW8).get ⟨0, by decide⟩).rating ∨
      (((getPlugins dbW8).get ⟨0, by decide⟩).rating =
          ((getPlugins dbW8).get ⟨1, by decide⟩).rating ∧
        strLE ((getPlugins dbW8).get ⟨0, by decide⟩).name
          ((getPlugins dbW8).get ⟨1, by decide⟩).name)) :=
  ⟨(C8_plugins_sorted dbW8).1,
   (C8_plugins_sorted dbW8).2 ⟨0, by decide⟩ ⟨1, by decide⟩ (by decide)⟩

/-- Claim C6: `GET /api/issues` with both `severity` and `status` returns
exactly the rows matching both filters (logical AND, exact match); with
neither filter it returns all rows ordered by creation timestamp
descending. -/
theorem C6_issue_filters (db : DB) (sv st : String) (hsv : sv ≠ "") (hst : st ≠ "") :
    (∀ i, i ∈ getIssues db (some sv) (some st) ↔
      i ∈ db.issues ∧ i.severity = sv ∧ i.status = st) ∧
    List.Perm (getIssues db none none) db.issues ∧
    List.Sorted issueLE (getIssues db none none) := by
  refine ⟨fun i => ?_, ?_, ?_⟩
  · simp [getIssues, issueMatches, jsMissingOrEmpty, hsv, hst, and_assoc]
  · have : db.issues.filter (issueMatches none none) = db.issues := by
      simp [issueMatches, jsMissingOrEmpty]
    rw [getIssues, this]
    exact List.perm_insertionSort issueLE db.issues
  · exact List.sorted_insertionSort issueLE _

/-!  ## Claim C2: completion ordering of the tag loop  -/

theorem tagDone_pending (s : MState) (tid : Option Nat) :
    (tagDone s tid).pending = s.pending - 1 := rfl

theorem tagDone_queue_none (s : MState) :
    (tagDone s none).queue = s.queue := rfl

theorem tagDone_queue_some (s : MState) (t : Nat) :
    (tagDone s (some t)).queue =
      s.queue ++ (linkIssued s.pluginId t).map toLinkOp := rfl

theorem tagDone_response (s : MState) (tid : Option Nat) :
    (tagDone s tid).response =
      if s.pending - 1 = 0 then
        some (Resp.createdPlugin "Plugin successfully added" s.pluginId)
      else s.response := rfl

theorem resolutionOps_append (q1 q2 : List Op) :
    resolutionOps (q1 ++ q2) = resolutionOps q1 + resolutionOps q2 := by
  simp [resolutionOps, List.filter_append]

theorem resolutionOps_linkMap (l : List (Nat × Nat)) :
    resolutionOps (l.map toLinkOp) = 0 := by
  induction l with
  | nil => rfl
  | cons x xs ih => simpa [resolutionOps, toLinkOp] using ih

theorem resolutionOps_cons_res (op : Op) (rest : List Op)
    (h : opWeight op ≠ 1) :
    resolutionOps (op :: rest) = resolutionOps rest + 1 := by
  cases op with
  | getTag nm => simp [resolutionOps]
  | insTag nm => simp [resolutionOps]
  | insLink a b => exact absurd rfl h

theorem resolutionOps_cons_link (a b : Nat) (rest : List Op) :
    resolutionOps (Op.insLink a b :: rest) = resolutionOps rest := by
  simp [resolutionOps]

theorem respInv_tagDone (s : MState) (tid : Option Nat)
    (h1 : resolutionOps s.queue + 1 = s.pending)
    (h2 : s.response.isSome = true → s.pending = 0) :
    respInv (tagDone s tid) := by
  have hq : resolutionOps (tagDone s tid).queue = resolutionOps s.queue := by
    cases tid with
    | none => rw [tagDone_queue_none]
    | some t =>
      rw [tagDone_queue_some, resolutionOps_append, resolutionOps_linkMap]
      omega
  constructor
  · rw [hq, tagDone_pending]
    omega
  · intro hresp
    rw [tagDone_pending]
    rw [tagDone_response] at hresp
    by_cases hp : s.pending - 1 = 0
    · exact hp
    · rw [if_neg hp] at hresp
      have := h2 hresp
      omega

theorem respInv_step (s : MState) (h : respInv s) : respInv (step s) := by
  obtain ⟨h1, h2⟩ := h
  cases hq : s.queue with
  | nil =>
    have hs : step s = s := by simp [step, hq]
    rw [hs]
    exact ⟨h1, h2⟩
  | cons op rest =>
    rw [hq] at h1
    cases op with
    | getTag nm =>
      rw [resolutionOps_cons_res _ _ (by simp [opWeight])] at h1
      cases hf : findTag s.db nm with
      | some id =>
        have hs : step s = tagDone { s with queue := rest } (some id) := by
          simp [step, hq, hf]
        rw [hs]
        exact respInv_tagDone _ _ h1 h2
      | none =>
        have hs : step s = { s with queue := rest ++ [Op.insTag nm] } := by
          simp [step, hq, hf]
        rw [hs]
        refine ⟨?_, h2⟩
        show resolutionOps (rest ++ [Op.insTag nm]) = s.pending
        rw [resolutionOps_append]
        have hone : resolutionOps [Op.insTag nm] = 1 := rfl
        omega
    | insTag nm =>
      rw [resolutionOps_cons_res _ _ (by simp [opWeight])] at h1
      cases hi : insertTagRow s.db nm with
      | some x =>
        have hs : step s = tagDone { s with db := x.1, queue := rest } (some x.2) := by
          simp [step, hq, hi]
        rw [hs]
        exact respInv_tagDone _ _ h1 h2
      | none =>
        have hs : step s = tagDone { s with queue := rest } none := by
          simp [step, hq, hi]
        rw [hs]
        exact respInv_tagDone _ _ h1 h2
    | insLink a b =>
      rw [resolutionOps_cons_link] at h1
      have hs : step s = { s with db := insertLinkRow s.db a b, queue := rest } := by
        simp [step, hq]
      rw [hs]
      exact ⟨h1, h2⟩

theorem respInv_stepN (n : Nat) (s : MState) (h : respInv s) :
    respInv (stepN n s) := by
  induction n generalizing s with
  | zero => exact h
  | succ n ih => exact ih (step s) (respInv_step s h)

theorem respInv_startTags_aux (l : List String) (s : MState)
    (h1 : s.pending = resolutionOps s.queue + l.length)
    (h2 : s.response.isSome = true → s.pending = 0) :
    respInv (l.foldl startTagsStep s) := by
  induction l generalizing s with
  | nil => exact ⟨h1.symm, h2⟩
  | cons n ns ih =>
    show respInv (ns.foldl startTagsStep (startTagsStep s n))
    unfold startTagsStep
    by_cases hn : jsTrim n = ""
    · rw [if_pos hn]
      refine ih (tagDone s none) ?_ ?_
      · rw [tagDone_pending, tagDone_queue_none]
        simp [List.length_cons] at h1
        omega
      · intro hresp
        rw [tagDone_pending]
        rw [tagDone_response] at hresp
        by_cases hp : s.pending - 1 = 0
        · exact hp
        · rw [if_neg hp] at hresp
          have := h2 hresp
          omega
    · rw [if_neg hn]
      refine ih _ ?_ ?_
      · show s.pending = resolutionOps (s.queue ++ [Op.getTag (jsTrim n)]) + ns.length
        rw [resolutionOps_append]
        have hone : resolutionOps [Op.getTag (jsTrim n)] = 1 := rfl
        simp only [List.length_cons] at h1
        omega
      · exact h2

theorem respInv_startTags (db : DB) (p : Nat) (l : List String) :
    respInv (startTags db p l) := by
  unfold startTags
  exact respInv_startTags_aux l _ (by simp [resolutionOps]) (by simp)

/-- Claim C2 (amended): whenever the tag loop of a `POST /api/plugins`
request has produced its 201 response — in any reachable state of the
connection queue — every tag resolution has finished and issued its link
insert; only `plugin_tags` link writes may still be outstanding on the
queue.  (The claim's stronger form, that no link write is outstanding
either, is refuted by the counterexample.) -/
theorem C2_amended (db : DB) (r : PluginReq) (n : Nat)
    (hresp : (stepN n (postPluginStart db r)).response.isSome = true) :
    resolutionOps (stepN n (postPluginStart db r)).queue = 0 := by
  have hinv : respInv (stepN n (postPluginStart db r)) :=
    respInv_stepN n _ (respInv_startTags _ _ _)
  have hp := hinv.2 hresp
  have h1 := hinv.1
  omega

theorem C2_witness :
    (stepN 2 (postPluginStart DB.empty (reqDebug "P1"))).response.isSome = true ∧
    resolutionOps (stepN 2 (postPluginStart DB.empty (reqDebug "P1"))).queue = 0 :=
  ⟨by decide, C2_amended DB.empty (reqDebug "P1") 2 (by decide)⟩

/-- Claim C2 (counterexample): after two completions of the tag loop of a
valid request tagged `["debug"]` from an empty store, the 201 response has
been produced while the `plugin_tags` link write is still outstanding on
the connection queue — the pair `(1, 1)` is not yet in the table.  The
server therefore can send the success response while a link write for the
plugin is outstanding. -/
theorem C2_counterexample :
    (stepN 2 (postPluginStart DB.empty (reqDebug "P1"))).response =
      some (Resp.createdPlugin "Plugin successfully added" 1) ∧
    (stepN 2 (postPluginStart DB.empty (reqDebug "P1"))).queue = [Op.insLink 1 1] ∧
    (1, 1) ∉ (stepN 2 (postPluginStart DB.empty (reqDebug "P1"))).db.pluginTags := by
  refine ⟨by decide, by decide, by decide⟩

theorem C6_witness :
    ((⟨1, "crash", "high", "open", 1⟩ : IssueRow) ∈
        getIssues dbI6 (some "high") (some "open") ↔
      (⟨1, "crash", "high", "open", 1⟩ : IssueRow) ∈ dbI6.issues ∧
        "high" = "high" ∧ "open" = "open") ∧
    List.Perm (getIssues dbI6 none none) dbI6.issues ∧
    List.Sorted issueLE (getIssues dbI6 none none) := by
  have h := C6_issue_filters dbI6 "high" "open" (by decide) (by decide)
  exact ⟨h.1 _, h.2.1, h.2.2⟩

/-!  ## Claim C3: draining the connection queue  -/

theorem stepN_add (a b : Nat) (s : MState) :
    stepN (a + b) s = stepN b (stepN a s) := by
  induction a generalizing s with
  | zero =>
    rw [Nat.zero_add]
    rfl
  | succ a ih =>
    have hone : a + 1 + b = (a + b) + 1 := by omega
    rw [hone]
    show stepN (a + b) (step s) = stepN b (stepN (a + 1) s)
    rw [ih (step s)]
    rfl

theorem step_of_nil (s : MState) (h : s.queue = []) : step s = s := by
  unfold step
  rw [h]

theorem stepN_of_nil (n : Nat) (s : MState) (h : s.queue = []) : stepN n s = s := by
  induction n generalizing s with
  | zero => rfl
  | succ n ih =>
    show stepN n (step s) = s
    rw [step_of_nil s h]
    exact ih s h

theorem opWeight_pos (op : Op) : 1 ≤ opWeight op := by
  cases op <;> simp [opWeight]

theorem queueWeight_append (q1 q2 : List Op) :
    queueWeight (q1 ++ q2) = queueWeight q1 + queueWeight q2 := by
  simp [queueWeight]

theorem queueWeight_cons (op : Op) (rest : List Op) :
    queueWeight (op :: rest) = opWeight op + queueWeight rest := by
  simp [queueWeight]

theorem queueWeight_nil_of_zero (q : List Op) (h : queueWeight q = 0) : q = [] := by
  cases q with
  | nil => rfl
  | cons op rest =>
    exfalso
    have h1 := opWeight_pos op
    rw [queueWeight_cons] at h
    omega

theorem queueWeight_linkMap (l : List (Nat × Nat)) :
    queueWeight (l.map toLinkOp) = l.length := by
  induction l with
  | nil => rfl
  | cons x xs ih =>
    rw [List.map_cons, queueWeight_cons, ih]
    simp [toLinkOp, opWeight]
    omega

theorem linkIssued_length (p t : Nat) : (linkIssued p t).length ≤ 1 := by
  unfold linkIssued
  split_ifs <;> simp

theorem tagDone_db (s : MState) (tid : Option Nat) : (tagDone s tid).db = s.db := rfl

theorem tagDone_pluginId (s : MState) (tid : Option Nat) :
    (tagDone s tid).pluginId = s.pluginId := rfl

theorem step_weight_lt (s : MState) (h : s.queue ≠ []) :
    queueWeight (step s).queue < queueWeight s.queue := by
  cases hq : s.queue with
  | nil => exact absurd hq h
  | cons op rest =>
    rw [queueWeight_cons]
    cases op with
    | getTag nm =>
      cases hf : findTag s.db nm with
      | some id =>
        have hs : step s = tagDone { s with queue := rest } (some id) := by
          simp [step, hq, hf]
        rw [hs, tagDone_queue_some, queueWeight_append, queueWeight_linkMap]
        rw [show ({ s with queue := rest } : MState).pluginId = s.pluginId from rfl]
        have h1 := linkIssued_length s.pluginId id
        simp only [opWeight]
        omega
      | none =>
        have hs : step s = { s with queue := rest ++ [Op.insTag nm] } := by
          simp [step, hq, hf]
        rw [hs]
        show queueWeight (rest ++ [Op.insTag nm]) < _
        rw [queueWeight_append]
        have h2 : queueWeight [Op.insTag nm] = 2 := rfl
        simp only [opWeight]
        omega
    | insTag nm =>
      cases hi : insertTagRow s.db nm with
      | some x =>
        have hs : step s = tagDone { s with db := x.1, queue := rest } (some x.2) := by
          simp [step, hq, hi]
        rw [hs, tagDone_queue_some, queueWeight_append, queueWeight_linkMap]
        rw [show ({ s with db := x.1, queue := rest } : MState).pluginId = s.pluginId from rfl]
        have h1 := linkIssued_length s.pluginId x.2
        simp only [opWeight]
        omega
      | none =>
        have hs : step s = tagDone { s with queue := rest } none := by
          simp [step, hq, hi]
        rw [hs, tagDone_queue_none]
        simp only [opWeight]
        omega
    | insLink a b =>
      have hs : step s = { s with db := insertLinkRow s.db a b, queue := rest } := by
        simp [step, hq]
      rw [hs]
      show queueWeight rest < _
      simp only [opWeight]
      omega

theorem stepN_drain (n : Nat) (s : MState) (h : queueWeight s.queue ≤ n) :
    (stepN n s).queue = [] := by
  induction n generalizing s with
  | zero =>
    rw [Nat.le_zero] at h
    exact queueWeight_nil_of_zero _ h
  | succ n ih =>
    by_cases hq : s.queue = []
    · rw [stepN_of_nil _ _ hq]
      exact hq
    · show (stepN n (step s)).queue = []
      refine ih (step s) ?_
      have := step_weight_lt s hq
      omega

theorem runQueue_queue (s : MState) : (runQueue s).queue = [] :=
  stepN_drain _ _ le_rfl

theorem stepN_congr_drained (a b : Nat) (s : MState) (hab : a ≤ b)
    (h : (stepN a s).queue = []) : stepN b s = stepN a s := by
  have hb : b = a + (b - a) := by omega
  rw [hb, stepN_add]
  exact stepN_of_nil _ _ h

theorem runQueue_stepN (n : Nat) (s : MState) :
    runQueue (stepN n s) = runQueue s := by
  have h1 : runQueue (stepN n s) = stepN (n + queueWeight (stepN n s).queue) s := by
    rw [runQueue, ← stepN_add]
  have hae : (stepN (n + queueWeight (stepN n s).queue) s).queue = [] := by
    rw [← h1]
    exact runQueue_queue _
  have hbe : (stepN (queueWeight s.queue) s).queue = [] := runQueue_queue s
  rcases le_total (n + queueWeight (stepN n s).queue) (queueWeight s.queue) with hc | hc
  · rw [h1, runQueue]
    exact (stepN_congr_drained _ _ _ hc hae).symm
  · rw [h1, runQueue]
    exact stepN_congr_drained _ _ _ hc hbe

theorem step_one (s : MState) : stepN 1 s = step s := rfl

theorem runQueue_step (s : MState) :
    runQueue s = runQueue (step s) := by
  rw [← step_one, runQueue_stepN]

/-!  ## Claim C3: the synchronous loop and the lookup block  -/

theorem trimmedNames_cons (n : String) (l : List String) :
    trimmedNames (n :: l) =
      if jsTrim n = "" then trimmedNames l else jsTrim n :: trimmedNames l := by
  by_cases h : jsTrim n = "" <;> simp [trimmedNames, h]

theorem startTags_foldl (l : List String) (s : MState) :
    (l.foldl startTagsStep s).db = s.db ∧
    (l.foldl startTagsStep s).pluginId = s.pluginId ∧
    (l.foldl startTagsStep s).queue = s.queue ++ (trimmedNames l).map Op.getTag := by
  induction l generalizing s with
  | nil => simp [trimmedNames]
  | cons n ns ih =>
    rw [List.foldl_cons]
    by_cases h : jsTrim n = ""
    · rw [show startTagsStep s n = tagDone s none from by simp [startTagsStep, h]]
      have h3 := ih (tagDone s none)
      rw [trimmedNames_cons, if_pos h]
      refine ⟨h3.1.trans (tagDone_db s none),
        h3.2.1.trans (tagDone_pluginId s none), ?_⟩
      rw [h3.2.2, tagDone_queue_none]
    · rw [show startTagsStep s n =
          { s with queue := s.queue ++ [Op.getTag (jsTrim n)] } from by
        simp [startTagsStep, h]]
      have h3 := ih { s with queue := s.queue ++ [Op.getTag (jsTrim n)] }
      rw [trimmedNames_cons, if_neg h]
      refine ⟨h3.1, h3.2.1, ?_⟩
      rw [h3.2.2]
      simp

theorem startTags_spec (db : DB) (p : Nat) (l : List String) :
    (startTags db p l).db = db ∧ (startTags db p l).pluginId = p ∧
    (startTags db p l).queue = (trimmedNames l).map Op.getTag := by
  unfold startTags
  have h := startTags_foldl l
    { db := db, pluginId := p, queue := [], pending := l.length, response := none }
  simpa using h

theorem stepN_getTags (ns : List String) : ∀ (s : MState) (tail : List Op),
    s.queue = ns.map Op.getTag ++ tail →
    (stepN ns.length s).db = s.db ∧
    (stepN ns.length s).pluginId = s.pluginId ∧
    (stepN ns.length s).queue = tail ++ genA s.db s.pluginId ns := by
  induction ns with
  | nil =>
    intro s tail hq
    refine ⟨rfl, rfl, ?_⟩
    show s.queue = tail ++ genA s.db s.pluginId []
    rw [hq]
    simp [genA]
  | cons n ns ih =>
    intro s tail hq
    rw [show stepN (n :: ns).length s = stepN ns.length (step s) from rfl]
    cases hf : findTag s.db n with
    | some id =>
      have hs : step s = tagDone { s with queue := ns.map Op.getTag ++ tail } (some id) := by
        simp [step, hq, hf]
      have hq2 : (step s).queue = ns.map Op.getTag ++
          (tail ++ (linkIssued s.pluginId id).map toLinkOp) := by
        rw [hs, tagDone_queue_some]
        simp
      have h3 := ih (step s) _ hq2
      have hdb : (step s).db = s.db := by rw [hs, tagDone_db]
      have hpid : (step s).pluginId = s.pluginId := by rw [hs, tagDone_pluginId]
      refine ⟨by rw [h3.1, hdb], by rw [h3.2.1, hpid], ?_⟩
      rw [h3.2.2, hdb, hpid]
      have hg : genA s.db s.pluginId (n :: ns) =
          (linkIssued s.pluginId id).map toLinkOp ++ genA s.db s.pluginId ns := by
        simp [genA, hf]
      rw [hg, List.append_assoc]
    | none =>
      have hs : step s = { s with queue := (ns.map Op.getTag ++ tail) ++ [Op.insTag n] } := by
        simp [step, hq, hf]
      have hq2 : (step s).queue = ns.map Op.getTag ++ (tail ++ [Op.insTag n]) := by
        rw [hs]
        simp
      have h3 := ih (step s) _ hq2
      have hdb : (step s).db = s.db := by rw [hs]
      have hpid : (step s).pluginId = s.pluginId := by rw [hs]
      refine ⟨by rw [h3.1, hdb], by rw [h3.2.1, hpid], ?_⟩
      rw [h3.2.2, hdb, hpid]
      have hg : genA s.db s.pluginId (n :: ns) =
          [Op.insTag n] ++ genA s.db s.pluginId ns := by
        simp [genA, hf]
      rw [hg, List.append_assoc]

/-!  ## Claim C3: the sequential summary of a lookup-free queue  -/

theorem insertTagRow_some (db : DB) (nm : String) (x : DB × Nat)
    (h : insertTagRow db nm = some x) :
    ∃ y, insertTagT db.tags db.tagsNext nm = some y ∧
      x.1 = { db with tags := y.1, tagsNext := y.2.1 } ∧ x.2 = y.2.2 := by
  unfold insertTagRow at h
  cases hy : insertTagT db.tags db.tagsNext nm with
  | none => rw [hy] at h; simp at h
  | some y =>
    rw [hy] at h
    simp at h
    exact ⟨y, rfl, by rw [← h], by rw [← h]⟩

theorem insertTagRow_none (db : DB) (nm : String)
    (h : insertTagRow db nm = none) :
    insertTagT db.tags db.tagsNext nm = none := by
  unfold insertTagRow at h
  cases hy : insertTagT db.tags db.tagsNext nm with
  | none => rfl
  | some y => rw [hy] at h; simp at h

theorem mem_insertLinkRow (db : DB) (a b : Nat) (pr : Nat × Nat) :
    pr ∈ (insertLinkRow db a b).pluginTags ↔
      pr ∈ db.pluginTags ∨ pr = (a, b) := by
  unfold insertLinkRow
  by_cases h : (a, b) ∈ db.pluginTags
  · rw [if_pos h]
    constructor
    · exact Or.inl
    · rintro (hm | rfl)
      · exact hm
      · exact h
  · rw [if_neg h]
    show pr ∈ db.pluginTags ++ [(a, b)] ↔ _
    simp

theorem insertLinkRow_tags (db : DB) (a b : Nat) :
    (insertLinkRow db a b).tags = db.tags ∧
    (insertLinkRow db a b).tagsNext = db.tagsNext ∧
    (insertLinkRow db a b).plugins = db.plugins ∧
    (insertLinkRow db a b).pluginsNext = db.pluginsNext ∧
    (insertLinkRow db a b).issues = db.issues ∧
    (insertLinkRow db a b).issuesNext = db.issuesNext ∧
    (insertLinkRow db a b).now = db.now := by
  unfold insertLinkRow
  split_ifs <;> exact ⟨rfl, rfl, rfl, rfl, rfl, rfl, rfl⟩

theorem insertLinkRow_nodup (db : DB) (a b : Nat)
    (h : db.pluginTags.Nodup) : (insertLinkRow db a b).pluginTags.Nodup := by
  unfold insertLinkRow
  by_cases hm : (a, b) ∈ db.pluginTags
  · rw [if_pos hm]
    exact h
  · rw [if_neg hm]
    show (db.pluginTags ++ [(a, b)]).Nodup
    rw [← List.concat_eq_append]
    exact h.concat hm

theorem specB_linkMap (p : Nat) (ts : List TagRow) (nx : Nat)
    (l : List (Nat × Nat)) :
    specB p ts nx (l.map toLinkOp) = ((ts, nx), l) := by
  induction l with
  | nil => rfl
  | cons x xs ih =>
    show specB p ts nx (Op.insLink x.1 x.2 :: xs.map toLinkOp) = _
    rw [specB, ih]

theorem specB_append (p : Nat) : ∀ (q1 q2 : List Op) (ts : List TagRow) (nx : Nat),
    specB p ts nx (q1 ++ q2) =
      ((specB p (specB p ts nx q1).1.1 (specB p ts nx q1).1.2 q2).1,
       (specB p ts nx q1).2 ++
         (specB p (specB p ts nx q1).1.1 (specB p ts nx q1).1.2 q2).2) := by
  intro q1
  induction q1 with
  | nil => intro q2 ts nx; simp [specB]
  | cons op rest ih =>
    intro q2 ts nx
    cases op with
    | getTag nm =>
      show specB p ts nx (Op.getTag nm :: (rest ++ q2)) = _
      rw [specB, ih, specB]
    | insTag nm =>
      show specB p ts nx (Op.insTag nm :: (rest ++ q2)) = _
      cases hi : insertTagT ts nx nm with
      | some y =>
        simp only [specB, hi]
        rw [ih]
        simp
      | none =>
        simp only [specB, hi]
        exact ih q2 ts nx
    | insLink a b =>
      show specB p ts nx (Op.insLink a b :: (rest ++ q2)) = _
      rw [specB, ih, specB]
      simp

theorem specB_genA (snap : DB) (p : Nat) :
    ∀ (ns : List String) (ts : List TagRow) (nx : Nat),
      specB p ts nx (genA snap p ns) = pipelineT snap p ts nx ns := by
  intro ns
  induction ns with
  | nil => intro ts nx; rfl
  | cons n ns ih =>
    intro ts nx
    cases hf : findTag snap n with
    | some id =>
      have hg : genA snap p (n :: ns) =
          (linkIssued p id).map toLinkOp ++ genA snap p ns := by
        simp [genA, hf]
      rw [hg, specB_append, specB_linkMap, ih]
      rw [pipelineT, hf]
    | none =>
      have hg : genA snap p (n :: ns) = Op.insTag n :: genA snap p ns := by
        simp [genA, hf]
      rw [hg]
      cases hi : insertTagT ts nx n with
      | some y =>
        simp only [specB, hi]
        rw [ih]
        simp only [pipelineT, hf, hi]
      | none =>
        simp only [specB, hi]
        rw [ih]
        simp only [pipelineT, hf, hi]

/-!  ## Claim C3: one completion preserves the sequential summary  -/

theorem runQueue_nil (s : MState) (hq : s.queue = []) : runQueue s = s := by
  show stepN (queueWeight s.queue) s = s
  rw [hq]
  rfl

theorem specB_step (s : MState) (op : Op) (rest : List Op)
    (hq : s.queue = op :: rest) (hng : noGetTag s.queue) :
    noGetTag (step s).queue ∧
    (specB (step s).pluginId (step s).db.tags (step s).db.tagsNext (step s).queue).1 =
      (specB s.pluginId s.db.tags s.db.tagsNext s.queue).1 ∧
    ((step s).db.plugins = s.db.plugins ∧
     (step s).db.pluginsNext = s.db.pluginsNext ∧
     (step s).db.issues = s.db.issues ∧
     (step s).db.issuesNext = s.db.issuesNext ∧
     (step s).db.now = s.db.now) ∧
    (∀ pr : Nat × Nat,
      (pr ∈ (step s).db.pluginTags ∨
        pr ∈ (specB (step s).pluginId (step s).db.tags (step s).db.tagsNext (step s).queue).2) ↔
      (pr ∈ s.db.pluginTags ∨
        pr ∈ (specB s.pluginId s.db.tags s.db.tagsNext s.queue).2)) := by
  have hrest : ∀ nm, Op.getTag nm ∉ rest := by
    intro nm hmem
    exact hng nm (by rw [hq]; exact List.mem_cons_of_mem _ hmem)
  cases op with
  | getTag nm =>
    exact absurd (by rw [hq]; exact List.mem_cons_self _ _) (hng nm)
  | insLink a b =>
    have hs : step s = { s with db := insertLinkRow s.db a b, queue := rest } := by
      simp [step, hq]
    have hfld := insertLinkRow_tags s.db a b
    have hspec : specB s.pluginId s.db.tags s.db.tagsNext s.queue =
        ((specB s.pluginId s.db.tags s.db.tagsNext rest).1,
         (a, b) :: (specB s.pluginId s.db.tags s.db.tagsNext rest).2) := by
      rw [hq]
      rfl
    refine ⟨?_, ?_, ?_, ?_⟩
    · intro nm
      rw [hs]
      exact hrest nm
    · rw [hs, hspec]
      show (specB s.pluginId (insertLinkRow s.db a b).tags
        (insertLinkRow s.db a b).tagsNext rest).1 = _
      rw [hfld.1, hfld.2.1]
    · rw [hs]
      exact ⟨hfld.2.2.1, hfld.2.2.2.1, hfld.2.2.2.2.1, hfld.2.2.2.2.2.1,
        hfld.2.2.2.2.2.2⟩
    · intro pr
      rw [hs, hspec]
      show pr ∈ (insertLinkRow s.db a b).pluginTags ∨
          pr ∈ (specB s.pluginId (insertLinkRow s.db a b).tags
            (insertLinkRow s.db a b).tagsNext rest).2 ↔ _
      rw [hfld.1, hfld.2.1, mem_insertLinkRow]
      constructor
      · rintro ((hm | rfl) | hm)
        · exact Or.inl hm
        · exact Or.inr (List.mem_cons_self _ _)
        · exact Or.inr (List.mem_cons_of_mem _ hm)
      · rintro (hm | hm)
        · exact Or.inl (Or.inl hm)
        · rcases List.mem_cons.mp hm with rfl | hm
          · exact Or.inl (Or.inr rfl)
          · exact Or.inr hm
  | insTag nm =>
    cases hi : insertTagRow s.db nm with
    | some x =>
      obtain ⟨y, hy, hx1, hx2⟩ := insertTagRow_some s.db nm x hi
      have hs : step s = tagDone { s with db := x.1, queue := rest } (some x.2) := by
        simp [step, hq, hi]
      have hsq : (step s).queue =
          rest ++ (linkIssued s.pluginId x.2).map toLinkOp := by
        rw [hs, tagDone_queue_some]
      have hsdb : (step s).db = x.1 := by rw [hs, tagDone_db]
      have hspid : (step s).pluginId = s.pluginId := by rw [hs, tagDone_pluginId]
      have hxt : x.1.tags = y.1 := by rw [hx1]
      have hxn : x.1.tagsNext = y.2.1 := by rw [hx1]
      have hxpt : x.1.pluginTags = s.db.pluginTags := by rw [hx1]
      have hspec : specB s.pluginId s.db.tags s.db.tagsNext s.queue =
          ((specB s.pluginId y.1 y.2.1 rest).1,
           linkIssued s.pluginId y.2.2 ++ (specB s.pluginId y.1 y.2.1 rest).2) := by
        rw [hq]
        simp only [specB, hy]
      have hspec2 : specB (step s).pluginId (step s).db.tags (step s).db.tagsNext
            (step s).queue =
          ((specB s.pluginId y.1 y.2.1 rest).1,
           (specB s.pluginId y.1 y.2.1 rest).2 ++ linkIssued s.pluginId y.2.2) := by
        rw [hsq, hsdb, hspid, hxt, hxn, hx2, specB_append, specB_linkMap]
      refine ⟨?_, ?_, ?_, ?_⟩
      · intro nm2
        rw [hsq]
        intro hmem
        rcases List.mem_append.mp hmem with hmem | hmem
        · exact hrest nm2 hmem
        · rcases List.mem_map.mp hmem with ⟨pr2, _, hpr2⟩
          simp [toLinkOp] at hpr2
      · rw [hspec2, hspec]
      · rw [hsdb, hx1]
        exact ⟨rfl, rfl, rfl, rfl, rfl⟩
      · intro pr
        rw [hspec2, hspec, hsdb, hxpt]
        show pr ∈ s.db.pluginTags ∨
            pr ∈ (specB s.pluginId y.1 y.2.1 rest).2 ++ linkIssued s.pluginId y.2.2 ↔ _
        simp only [List.mem_append]
        constructor
        · rintro (hm | hm | hm)
          · exact Or.inl hm
          · exact Or.inr (Or.inr hm)
          · exact Or.inr (Or.inl hm)
        · rintro (hm | hm | hm)
          · exact Or.inl hm
          · exact Or.inr (Or.inr hm)
          · exact Or.inr (Or.inl hm)
    | none =>
      have hy := insertTagRow_none s.db nm hi
      have hs : step s = tagDone { s with queue := rest } none := by
        simp [step, hq, hi]
      have hsq : (step s).queue = rest := by rw [hs, tagDone_queue_none]
      have hsdb : (step s).db = s.db := by rw [hs, tagDone_db]
      have hspid : (step s).pluginId = s.pluginId := by rw [hs, tagDone_pluginId]
      have hspec : specB s.pluginId s.db.tags s.db.tagsNext s.queue =
          specB s.pluginId s.db.tags s.db.tagsNext rest := by
        rw [hq]
        simp only [specB, hy]
      refine ⟨?_, ?_, ?_, ?_⟩
      · intro nm2
        rw [hsq]
        exact hrest nm2
      · rw [hspec, hsq, hsdb, hspid]
      · rw [hsdb]
        exact ⟨rfl, rfl, rfl, rfl, rfl⟩
      · intro pr
        rw [hspec, hsq, hsdb, hspid]

/-!  ## Claim C3: running a lookup-free queue to quiescence  -/

theorem runB : ∀ (w : Nat) (s : MState), queueWeight s.queue ≤ w →
    noGetTag s.queue →
    ((runQueue s).db.tags =
        (specB s.pluginId s.db.tags s.db.tagsNext s.queue).1.1 ∧
     (runQueue s).db.tagsNext =
        (specB s.pluginId s.db.tags s.db.tagsNext s.queue).1.2) ∧
    ((runQueue s).db.plugins = s.db.plugins ∧
     (runQueue s).db.pluginsNext = s.db.pluginsNext ∧
     (runQueue s).db.issues = s.db.issues ∧
     (runQueue s).db.issuesNext = s.db.issuesNext ∧
     (runQueue s).db.now = s.db.now) ∧
    (∀ pr : Nat × Nat, pr ∈ (runQueue s).db.pluginTags ↔
      pr ∈ s.db.pluginTags ∨
        pr ∈ (specB s.pluginId s.db.tags s.db.tagsNext s.queue).2) := by
  intro w
  induction w with
  | zero =>
    intro s hw hng
    have hq : s.queue = [] := queueWeight_nil_of_zero _ (Nat.le_zero.mp hw)
    rw [runQueue_nil s hq, hq]
    exact ⟨⟨rfl, rfl⟩, ⟨rfl, rfl, rfl, rfl, rfl⟩, fun pr => by simp [specB]⟩
  | succ w ih =>
    intro s hw hng
    cases hq : s.queue with
    | nil =>
      rw [runQueue_nil s hq]
      exact ⟨⟨rfl, rfl⟩, ⟨rfl, rfl, rfl, rfl, rfl⟩, fun pr => by simp [specB]⟩
    | cons op rest =>
      have hlt := step_weight_lt s (by rw [hq]; simp)
      have hwlt : queueWeight (step s).queue ≤ w := by omega
      obtain ⟨hng2, hB, hC, hD⟩ := specB_step s op rest hq hng
      have h3 := ih (step s) hwlt hng2
      rw [runQueue_step s, ← hq]
      refine ⟨⟨?_, ?_⟩, ?_, ?_⟩
      · rw [h3.1.1, hB]
      · rw [h3.1.2, hB]
      · exact ⟨h3.2.1.1.trans hC.1, h3.2.1.2.1.trans hC.2.1,
          h3.2.1.2.2.1.trans hC.2.2.1, h3.2.1.2.2.2.1.trans hC.2.2.2.1,
          h3.2.1.2.2.2.2.trans hC.2.2.2.2⟩
      · intro pr
        rw [h3.2.2 pr]
        exact hD pr

theorem step_pluginTags_nodup (s : MState)
    (h : s.db.pluginTags.Nodup) : (step s).db.pluginTags.Nodup := by
  cases hq : s.queue with
  | nil => rw [step_of_nil s hq]; exact h
  | cons op rest =>
    cases op with
    | getTag nm =>
      cases hf : findTag s.db nm with
      | some id =>
        have hs : step s = tagDone { s with queue := rest } (some id) := by
          simp [step, hq, hf]
        rw [hs, tagDone_db]
        exact h
      | none =>
        have hs : step s = { s with queue := rest ++ [Op.insTag nm] } := by
          simp [step, hq, hf]
        rw [hs]
        exact h
    | insTag nm =>
      cases hi : insertTagRow s.db nm with
      | some x =>
        obtain ⟨y, hy, hx1, hx2⟩ := insertTagRow_some s.db nm x hi
        have hs : step s = tagDone { s with db := x.1, queue := rest } (some x.2) := by
          simp [step, hq, hi]
        rw [hs, tagDone_db]
        show x.1.pluginTags.Nodup
        rw [hx1]
        exact h
      | none =>
        have hs : step s = tagDone { s with queue := rest } none := by
          simp [step, hq, hi]
        rw [hs, tagDone_db]
        exact h
    | insLink a b =>
      have hs : step s = { s with db := insertLinkRow s.db a b, queue := rest } := by
        simp [step, hq]
      rw [hs]
      exact insertLinkRow_nodup s.db a b h

theorem stepN_pluginTags_nodup (n : Nat) (s : MState)
    (h : s.db.pluginTags.Nodup) : (stepN n s).db.pluginTags.Nodup := by
  induction n generalizing s with
  | zero => exact h
  | succ n ih => exact ih (step s) (step_pluginTags_nodup s h)

theorem runQueue_pluginTags_nodup (s : MState)
    (h : s.db.pluginTags.Nodup) : (runQueue s).db.pluginTags.Nodup :=
  stepN_pluginTags_nodup _ s h

/-!  ## Claim C3: name and id bookkeeping of the tags table  -/

theorem findTag_tags (db : DB) (nm : String) : findTag db nm = findTagT db.tags nm := rfl

theorem findTagT_isSome_iff (ts : List TagRow) (nm : String) :
    (findTagT ts nm).isSome = true ↔ ∃ t ∈ ts, t.name = nm := by
  simp [findTagT, List.find?_isSome]

theorem findTagT_none_iff (ts : List TagRow) (nm : String) :
    findTagT ts nm = none ↔ ∀ t ∈ ts, t.name ≠ nm := by
  simp [findTagT, List.find?_eq_none]

theorem findTagT_append_left (ts ext : List TagRow) (nm : String)
    (h : (findTagT ts nm).isSome = true) :
    findTagT (ts ++ ext) nm = findTagT ts nm := by
  unfold findTagT at h ⊢
  rw [List.find?_append]
  cases hf : ts.find? (fun t => t.name == nm) with
  | none => rw [hf] at h; simp at h
  | some t => rfl

theorem findTagT_append_new (ts : List TagRow) (row : TagRow)
    (h : findTagT ts row.name = none) :
    findTagT (ts ++ [row]) row.name = some row.id := by
  have hn : ts.find? (fun t => t.name == row.name) = none := by
    unfold findTagT at h
    cases hf : ts.find? (fun t => t.name == row.name) with
    | none => rfl
    | some t => rw [hf] at h; simp at h
  unfold findTagT
  rw [List.find?_append, hn]
  simp [List.find?]

theorem idOfName_found (ts : List TagRow) (nm : String) (i : Nat)
    (h : findTagT ts nm = some i) : idOfName ts nm = i := by
  unfold idOfName
  unfold findTagT at h
  rw [h]
  rfl

theorem idOfName_inj (ts : List TagRow)
    (hni : (ts.map fun t => t.id).Nodup) (nm1 nm2 : String)
    (h1 : ∃ t ∈ ts, t.name = nm1) (h2 : ∃ t ∈ ts, t.name = nm2)
    (heq : idOfName ts nm1 = idOfName ts nm2) : nm1 = nm2 := by
  obtain ⟨r1, hr1⟩ : ∃ r, ts.find? (fun t => t.name == nm1) = some r := by
    have hs := (findTagT_isSome_iff ts nm1).mpr h1
    unfold findTagT at hs
    cases hf : ts.find? (fun t => t.name == nm1) with
    | none => rw [hf] at hs; simp at hs
    | some r => exact ⟨r, rfl⟩
  obtain ⟨r2, hr2⟩ : ∃ r, ts.find? (fun t => t.name == nm2) = some r := by
    have hs := (findTagT_isSome_iff ts nm2).mpr h2
    unfold findTagT at hs
    cases hf : ts.find? (fun t => t.name == nm2) with
    | none => rw [hf] at hs; simp at hs
    | some r => exact ⟨r, rfl⟩
  have hm1 : r1 ∈ ts := List.mem_of_find?_eq_some hr1
  have hm2 : r2 ∈ ts := List.mem_of_find?_eq_some hr2
  have hn1 : r1.name = nm1 := by simpa using List.find?_some hr1
  have hn2 : r2.name = nm2 := by simpa using List.find?_some hr2
  have hid1 : idOfName ts nm1 = r1.id := by unfold idOfName; rw [hr1]; rfl
  have hid2 : idOfName ts nm2 = r2.id := by unfold idOfName; rw [hr2]; rfl
  have hr : r1 = r2 :=
    List.inj_on_of_nodup_map hni hm1 hm2 (by rw [← hid1, ← hid2, heq])
  rw [← hn1, ← hn2, hr]

theorem insertTagT_some (ts : List TagRow) (nx : Nat) (n : String)
    (y : List TagRow × Nat × Nat) (h : insertTagT ts nx n = some y) :
    (¬∃ t ∈ ts, t.name = n) ∧ y = (ts ++ [⟨nx, n⟩], nx + 1, nx) := by
  unfold insertTagT at h
  by_cases hc : ∃ t ∈ ts, t.name = n
  · rw [if_pos hc] at h
    simp at h
  · rw [if_neg hc] at h
    simp at h
    exact ⟨hc, h.symm⟩

theorem insertTagT_none (ts : List TagRow) (nx : Nat) (n : String)
    (h : insertTagT ts nx n = none) : ∃ t ∈ ts, t.name = n := by
  unfold insertTagT at h
  by_cases hc : ∃ t ∈ ts, t.name = n
  · exact hc
  · rw [if_neg hc] at h
    simp at h

/-!  ## Claim C3: the end-to-end summary of the tag loop  -/

theorem pipelineT_spec (snap : DB) (p : Nat) (hp : p ≠ 0) :
    ∀ (ns : List String) (ts : List TagRow) (nx : Nat),
      (∃ ext, ts = snap.tags ++ ext) →
      ((ts.map fun t => t.name).Nodup) →
      ((ts.map fun t => t.id).Nodup) →
      (∀ t ∈ ts, 0 < t.id ∧ t.id < nx) →
      0 < nx →
      (∃ ext2, (pipelineT snap p ts nx ns).1.1 = ts ++ ext2) ∧
      (((pipelineT snap p ts nx ns).1.1.map fun t => t.name).Nodup) ∧
      (((pipelineT snap p ts nx ns).1.1.map fun t => t.id).Nodup) ∧
      (∀ t ∈ (pipelineT snap p ts nx ns).1.1,
        0 < t.id ∧ t.id < (pipelineT snap p ts nx ns).1.2) ∧
      (0 < (pipelineT snap p ts nx ns).1.2) ∧
      (∀ nm, (∃ t ∈ (pipelineT snap p ts nx ns).1.1, t.name = nm) ↔
        ((∃ t ∈ ts, t.name = nm) ∨ (nm ∈ ns ∧ findTag snap nm = none))) ∧
      (∀ pr ∈ (pipelineT snap p ts nx ns).2,
        ∃ nm ∈ ns, pr = (p, idOfName (pipelineT snap p ts nx ns).1.1 nm)) ∧
      (∀ nm ∈ ns, ((findTag snap nm).isSome = true ∨ ¬∃ t ∈ ts, t.name = nm) →
        (p, idOfName (pipelineT snap p ts nx ns).1.1 nm) ∈
          (pipelineT snap p ts nx ns).2) := by
  intro ns
  induction ns with
  | nil =>
    intro ts nx hext hnn hni hb hnx
    refine ⟨⟨[], (List.append_nil ts).symm⟩, hnn, hni, hb, hnx, ?_, ?_, ?_⟩
    · intro nm
      constructor
      · exact Or.inl
      · rintro (h | ⟨hm, _⟩)
        · exact h
        · cases hm
    · intro pr hpr
      cases hpr
    · intro nm hm
      cases hm
  | cons n ns ih =>
    intro ts nx hext hnn hni hb hnx
    obtain ⟨ext, hext⟩ := hext
    cases hf : findTag snap n with
    | some id =>
      have heq : pipelineT snap p ts nx (n :: ns) =
          ((pipelineT snap p ts nx ns).1,
           linkIssued p id ++ (pipelineT snap p ts nx ns).2) := by
        simp only [pipelineT, hf]
      obtain ⟨⟨ext2, hext2⟩, C2, C3, C4, C5, C6, C7, C8⟩ :=
        ih ts nx ⟨ext, hext⟩ hnn hni hb hnx
      -- the id delivered by the lookup is the id of a row of the snapshot
      obtain ⟨r, hr⟩ : ∃ r, snap.tags.find? (fun t => t.name == n) = some r := by
        have hs : findTagT snap.tags n = some id := hf
        unfold findTagT at hs
        cases hg : snap.tags.find? (fun t => t.name == n) with
        | none => rw [hg] at hs; simp at hs
        | some r => exact ⟨r, rfl⟩
      have hrid : r.id = id := by
        have hs : findTagT snap.tags n = some id := hf
        unfold findTagT at hs
        rw [hr] at hs
        simpa using hs
      have hrmem : r ∈ ts := by
        rw [hext]
        exact List.mem_append_left _ (List.mem_of_find?_eq_some hr)
      have hid0 : id ≠ 0 := by
        have := (hb r hrmem).1
        omega
      have hlink : linkIssued p id = [(p, id)] := by
        unfold linkIssued
        rw [if_pos hid0, if_neg (by rintro (h | h); exacts [hp h, hid0 h])]
      have hidOf : idOfName (pipelineT snap p ts nx ns).1.1 n = id := by
        refine idOfName_found _ _ _ ?_
        rw [hext2, hext, List.append_assoc]
        have hbase : findTagT snap.tags n = some id := hf
        rw [findTagT_append_left _ _ _ (by rw [hbase]; rfl)]
        exact hbase
      rw [heq]
      refine ⟨⟨ext2, hext2⟩, C2, C3, C4, C5, ?_, ?_, ?_⟩
      · intro nm
        rw [C6 nm]
        constructor
        · rintro (h | ⟨hm, hnone⟩)
          · exact Or.inl h
          · exact Or.inr ⟨List.mem_cons_of_mem _ hm, hnone⟩
        · rintro (h | ⟨hm, hnone⟩)
          · exact Or.inl h
          · rcases List.mem_cons.mp hm with rfl | hm
            · rw [hf] at hnone
              cases hnone
            · exact Or.inr ⟨hm, hnone⟩
      · intro pr hpr
        rcases List.mem_append.mp hpr with hpr | hpr
        · rw [hlink] at hpr
          rcases List.mem_singleton.mp hpr with rfl
          exact ⟨n, List.mem_cons_self _ _, by rw [hidOf]⟩
        · obtain ⟨nm, hm, hpr⟩ := C7 pr hpr
          exact ⟨nm, List.mem_cons_of_mem _ hm, hpr⟩
      · intro nm hm hcond
        rcases List.mem_cons.mp hm with rfl | hm
        · rw [hidOf, hlink]
          exact List.mem_append_left _ (List.mem_singleton.mpr rfl)
        · exact List.mem_append_right _ (C8 nm hm hcond)
    | none =>
      cases hi : insertTagT ts nx n with
      | some y =>
        obtain ⟨hc, hy⟩ := insertTagT_some ts nx n y hi
        have heq : pipelineT snap p ts nx (n :: ns) =
            ((pipelineT snap p (ts ++ [⟨nx, n⟩]) (nx + 1) ns).1,
             linkIssued p nx ++
               (pipelineT snap p (ts ++ [⟨nx, n⟩]) (nx + 1) ns).2) := by
          simp only [pipelineT, hf, hi, hy]
        have hnmem : ∀ nm, (∃ t ∈ ts ++ [(⟨nx, n⟩ : TagRow)], t.name = nm) ↔
            ((∃ t ∈ ts, t.name = nm) ∨ nm = n) := by
          intro nm
          constructor
          · rintro ⟨t, ht, htn⟩
            rcases List.mem_append.mp ht with ht | ht
            · exact Or.inl ⟨t, ht, htn⟩
            · rcases List.mem_singleton.mp ht with rfl
              exact Or.inr htn.symm
          · rintro (⟨t, ht, htn⟩ | rfl)
            · exact ⟨t, List.mem_append_left _ ht, htn⟩
            · exact ⟨⟨nx, nm⟩, List.mem_append_right _ (List.mem_singleton.mpr rfl), rfl⟩
        have hnameNotIn : n ∉ ts.map fun t => t.name := by
          intro hmem
          obtain ⟨t, ht, htn⟩ := List.mem_map.mp hmem
          exact hc ⟨t, ht, htn⟩
        have hidNotIn : nx ∉ ts.map fun t => t.id := by
          intro hmem
          obtain ⟨t, ht, htn⟩ := List.mem_map.mp hmem
          have := (hb t ht).2
          omega
        have hnn2 : ((ts ++ [(⟨nx, n⟩ : TagRow)]).map fun t => t.name).Nodup := by
          rw [List.map_append]
          rw [show (([(⟨nx, n⟩ : TagRow)]).map fun t => t.name) = [n] from rfl]
          rw [← List.concat_eq_append]
          exact hnn.concat hnameNotIn
        have hni2 : ((ts ++ [(⟨nx, n⟩ : TagRow)]).map fun t => t.id).Nodup := by
          rw [List.map_append]
          rw [show (([(⟨nx, n⟩ : TagRow)]).map fun t => t.id) = [nx] from rfl]
          rw [← List.concat_eq_append]
          exact hni.concat hidNotIn
        have hb2 : ∀ t ∈ ts ++ [(⟨nx, n⟩ : TagRow)], 0 < t.id ∧ t.id < nx + 1 := by
          intro t ht
          rcases List.mem_append.mp ht with ht | ht
          · have := hb t ht
            omega
          · rcases List.mem_singleton.mp ht with rfl
            simpa using hnx
        obtain ⟨⟨ext2, hext2⟩, C2, C3, C4, C5, C6, C7, C8⟩ :=
          ih (ts ++ [⟨nx, n⟩]) (nx + 1)
            ⟨ext ++ [⟨nx, n⟩], by rw [hext, List.append_assoc]⟩ hnn2 hni2 hb2
            (by omega)
        have hnx0 : nx ≠ 0 := by omega
        have hlink : linkIssued p nx = [(p, nx)] := by
          unfold linkIssued
          rw [if_pos hnx0, if_neg (by rintro (h | h); exacts [hp h, hnx0 h])]
        have hidOf : idOfName (pipelineT snap p (ts ++ [⟨nx, n⟩]) (nx + 1) ns).1.1 n = nx := by
          refine idOfName_found _ _ _ ?_
          rw [hext2, List.append_assoc]
          have hbase : findTagT (ts ++ [(⟨nx, n⟩ : TagRow)]) n = some nx := by
            have hnone : findTagT ts n = none := by
              rw [findTagT_none_iff]
              intro t ht htn
              exact hc ⟨t, ht, htn⟩
            exact findTagT_append_new ts ⟨nx, n⟩ hnone
          rw [show ts ++ ([(⟨nx, n⟩ : TagRow)] ++ ext2) =
            (ts ++ [(⟨nx, n⟩ : TagRow)]) ++ ext2 from (List.append_assoc _ _ _).symm]
          rw [findTagT_append_left _ _ _ (by rw [hbase]; rfl)]
          exact hbase
        rw [heq]
        refine ⟨⟨[⟨nx, n⟩] ++ ext2, by rw [hext2, List.append_assoc]⟩,
          C2, C3, C4, C5, ?_, ?_, ?_⟩
        · intro nm
          rw [C6 nm, hnmem nm]
          constructor
          · rintro ((h | rfl) | ⟨hm, hnone⟩)
            · exact Or.inl h
            · exact Or.inr ⟨List.mem_cons_self _ _, hf⟩
            · exact Or.inr ⟨List.mem_cons_of_mem _ hm, hnone⟩
          · rintro (h | ⟨hm, hnone⟩)
            · exact Or.inl (Or.inl h)
            · rcases List.mem_cons.mp hm with rfl | hm
              · exact Or.inl (Or.inr rfl)
              · exact Or.inr ⟨hm, hnone⟩
        · intro pr hpr
          rcases List.mem_append.mp hpr with hpr | hpr
          · rw [hlink] at hpr
            rcases List.mem_singleton.mp hpr with rfl
            exact ⟨n, List.mem_cons_self _ _, by rw [hidOf]⟩
          · obtain ⟨nm, hm, hpr⟩ := C7 pr hpr
            exact ⟨nm, List.mem_cons_of_mem _ hm, hpr⟩
        · intro nm hm hcond
          rcases List.mem_cons.mp hm with rfl | hm
          · rw [hidOf, hlink]
            exact List.mem_append_left _ (List.mem_singleton.mpr rfl)
          · by_cases hnmn : nm = n
            · subst hnmn
              rw [hidOf, hlink]
              exact List.mem_append_left _ (List.mem_singleton.mpr rfl)
            · refine List.mem_append_right _ (C8 nm hm ?_)
              rcases hcond with h | h
              · exact Or.inl h
              · refine Or.inr ?_
                rw [hnmem nm]
                rintro (hx | hx)
                · exact h hx
                · exact hnmn hx
      | none =>
        have hc := insertTagT_none ts nx n hi
        have heq : pipelineT snap p ts nx (n :: ns) =
            pipelineT snap p ts nx ns := by
          simp only [pipelineT, hf, hi]
        obtain ⟨⟨ext2, hext2⟩, C2, C3, C4, C5, C6, C7, C8⟩ :=
          ih ts nx ⟨ext, hext⟩ hnn hni hb hnx
        rw [heq]
        refine ⟨⟨ext2, hext2⟩, C2, C3, C4, C5, ?_, ?_, ?_⟩
        · intro nm
          rw [C6 nm]
          constructor
          · rintro (h | ⟨hm, hnone⟩)
            · exact Or.inl h
            · exact Or.inr ⟨List.mem_cons_of_mem _ hm, hnone⟩
          · rintro (h | ⟨hm, hnone⟩)
            · exact Or.inl h
            · rcases List.mem_cons.mp hm with rfl | hm
              · exact Or.inl hc
              · exact Or.inr ⟨hm, hnone⟩
        · intro pr hpr
          obtain ⟨nm, hm, hpr⟩ := C7 pr hpr
          exact ⟨nm, List.mem_cons_of_mem _ hm, hpr⟩
        · intro nm hm hcond
          rcases List.mem_cons.mp hm with rfl | hm
          · rcases hcond with h | h
            · rw [hf] at h
              simp at h
            · exact absurd hc h
          · exact C8 nm hm hcond

/-!  ## Claim C3: from the handler to the pipeline summary  -/

theorem genA_noGetTag (db : DB) (p : Nat) : ∀ ns, noGetTag (genA db p ns) := by
  intro ns
  induction ns with
  | nil =>
    intro nm hmem
    cases hmem
  | cons n ns ih =>
    intro nm hmem
    cases hf : findTag db n with
    | some id =>
      rw [show genA db p (n :: ns) =
          (linkIssued p id).map toLinkOp ++ genA db p ns from by
        simp [genA, hf]] at hmem
      rcases List.mem_append.mp hmem with h | h
      · rcases List.mem_map.mp h with ⟨pr, _, hpr⟩
        simp [toLinkOp] at hpr
      · exact ih nm h
    | none =>
      rw [show genA db p (n :: ns) = Op.insTag n :: genA db p ns from by
        simp [genA, hf]] at hmem
      rcases List.mem_cons.mp hmem with h | h
      · exact Op.noConfusion h
      · exact ih nm h

theorem ratingOk_isNone (o : Option JsNum) (h : ratingOk o = true) :
    o.isNone = false := by
  cases o with
  | none => simp [ratingOk] at h
  | some _ => rfl

theorem count_one_of_nodup_mem (ts : List TagRow) (nm : String)
    (hnn : (ts.map fun t => t.name).Nodup)
    (hm : nm ∈ ts.map fun t => t.name) :
    (ts.filter fun t => t.name == nm).length = 1 := by
  have h1 : (ts.map fun t => t.name).count nm =
      (ts.filter fun t => t.name == nm).length := by
    show List.countP (fun x => x == nm) (ts.map fun t => t.name) = _
    rw [List.countP_map, List.countP_eq_length_filter]
    rfl
  have h2 := List.count_eq_one_of_mem hnn hm
  omega

theorem postPlugin_final (db : DB) (r : PluginReq) (ts : List String)
    (hname : jsMissingOrEmpty r.name = false)
    (hauthor : jsMissingOrEmpty r.author = false)
    (hversion : jsMissingOrEmpty r.version = false)
    (hrating : ratingOk r.rating = true)
    (htags : r.tags = TagsField.arr ts)
    (hempty : ts.isEmpty = false) :
    (postPlugin db r).1.tags =
      (pipelineT (dbAfterPluginInsert db r) db.pluginsNext
        (dbAfterPluginInsert db r).tags (dbAfterPluginInsert db r).tagsNext
        (trimmedNames ts)).1.1 ∧
    (db.pluginTags.Nodup → (postPlugin db r).1.pluginTags.Nodup) ∧
    (∀ pr : Nat × Nat, pr ∈ (postPlugin db r).1.pluginTags ↔
      pr ∈ db.pluginTags ∨
        pr ∈ (pipelineT (dbAfterPluginInsert db r) db.pluginsNext
          (dbAfterPluginInsert db r).tags (dbAfterPluginInsert db r).tagsNext
          (trimmedNames ts)).2) := by
  have hnone : r.rating.isNone = false := ratingOk_isNone r.rating hrating
  have hlist : tagListOf r.tags = ts := by
    rw [htags]
    rfl
  have hpp : postPlugin db r =
      ((runQueue (postPluginStart db r)).db,
       (runQueue (postPluginStart db r)).response) := by
    unfold postPlugin
    rw [hname, hauthor, hversion, hnone, hrating, hlist, hempty]
    rfl
  have hs0 := startTags_spec (dbAfterPluginInsert db r) db.pluginsNext
    (tagListOf r.tags)
  have hdb0 : (postPluginStart db r).db = dbAfterPluginInsert db r := hs0.1
  have hpid0 : (postPluginStart db r).pluginId = db.pluginsNext := hs0.2.1
  have hq0 : (postPluginStart db r).queue = (trimmedNames ts).map Op.getTag := by
    rw [show (postPluginStart db r).queue =
      (startTags (dbAfterPluginInsert db r) db.pluginsNext (tagListOf r.tags)).queue
      from rfl, hs0.2.2, hlist]
  obtain ⟨hudb, hupid, huq⟩ := stepN_getTags (trimmedNames ts)
    (postPluginStart db r) [] (by rw [hq0, List.append_nil])
  rw [hdb0] at hudb
  rw [hpid0] at hupid
  rw [hdb0, hpid0, List.nil_append] at huq
  have hrun : runQueue (postPluginStart db r) =
      runQueue (stepN (trimmedNames ts).length (postPluginStart db r)) :=
    (runQueue_stepN _ _).symm
  have hng : noGetTag
      (stepN (trimmedNames ts).length (postPluginStart db r)).queue := by
    rw [huq]
    exact genA_noGetTag _ _ _
  obtain ⟨hBtags, hBrest, hBmem⟩ :=
    runB (queueWeight (stepN (trimmedNames ts).length (postPluginStart db r)).queue)
      (stepN (trimmedNames ts).length (postPluginStart db r)) le_rfl hng
  rw [hupid, hudb, huq, specB_genA] at hBtags
  rw [hupid, hudb, huq, specB_genA] at hBmem
  refine ⟨?_, ?_, ?_⟩
  · rw [hpp]
    show (runQueue (postPluginStart db r)).db.tags = _
    rw [hrun]
    exact hBtags.1
  · intro hPT
    rw [hpp]
    show (runQueue (postPluginStart db r)).db.pluginTags.Nodup
    rw [hrun]
    refine runQueue_pluginTags_nodup _ ?_
    rw [hudb]
    exact hPT
  · intro pr
    rw [hpp]
    show pr ∈ (runQueue (postPluginStart db r)).db.pluginTags ↔ _
    rw [hrun, hBmem pr]
    rfl

/-!  ## Claim C3  -/

/-- Claim C3: a valid plugin-creation request (duplicate tag names allowed)
leaves exactly one `tags` row per distinct trimmed non-empty name — the
table keeps globally unique names — and gives the created plugin exactly as
many `plugin_tags` rows as distinct names; and concretely, creating two
plugins both tagged `"debug"` yields one `tags` row named `"debug"` and two
`plugin_tags` rows.  The table-shape hypotheses are the invariants the
schema maintains (unique names, distinct positive row ids below the
`AUTOINCREMENT` counter, no links for the not-yet-used plugin id). -/
theorem C3_distinct_tags (db : DB) (r : PluginReq) (ts : List String)
    (hname : jsMissingOrEmpty r.name = false)
    (hauthor : jsMissingOrEmpty r.author = false)
    (hversion : jsMissingOrEmpty r.version = false)
    (hrating : ratingOk r.rating = true)
    (htags : r.tags = TagsField.arr ts)
    (hTnn : (db.tags.map fun t => t.name).Nodup)
    (hTni : (db.tags.map fun t => t.id).Nodup)
    (hTb : ∀ t ∈ db.tags, 0 < t.id ∧ t.id < db.tagsNext)
    (hTnx : 0 < db.tagsNext)
    (hPT : db.pluginTags.Nodup)
    (hPTfresh : ∀ pr ∈ db.pluginTags, pr.1 ≠ db.pluginsNext)
    (hpid : db.pluginsNext ≠ 0) :
    ((((postPlugin db r).1.tags.map fun t => t.name).Nodup) ∧
     (∀ nm, nm ∈ (postPlugin db r).1.tags.map (fun t => t.name) ↔
       (nm ∈ db.tags.map (fun t => t.name) ∨ nm ∈ (trimmedNames ts).dedup)) ∧
     (∀ nm ∈ (trimmedNames ts).dedup,
       ((postPlugin db r).1.tags.filter fun t => t.name == nm).length = 1) ∧
     (((postPlugin db r).1.pluginTags.filter
         fun pr => pr.1 == db.pluginsNext).length =
       (trimmedNames ts).dedup.length) ∧
     (postPlugin db r).1.pluginTags.Nodup) ∧
    ((postPlugin (postPlugin DB.empty (reqDebug "P1")).1 (reqDebug "P2")).1.tags =
       [⟨1, "debug"⟩] ∧
     (postPlugin (postPlugin DB.empty (reqDebug "P1")).1 (reqDebug "P2")).1.pluginTags =
       [(1, 1), (2, 1)] ∧
     (postPlugin DB.empty (reqDebug "P1")).2 =
       some (Resp.createdPlugin "Plugin successfully added" 1) ∧
     (postPlugin (postPlugin DB.empty (reqDebug "P1")).1 (reqDebug "P2")).2 =
       some (Resp.createdPlugin "Plugin successfully added" 2)) := by
  refine ⟨?_, by decide, by decide, by decide, by decide⟩
  by_cases hempty : ts.isEmpty = true
  · -- empty tag list: the no-tags branch, nothing written to tags/links
    have hts : ts = [] := by
      cases ts with
      | nil => rfl
      | cons a l => simp [List.isEmpty] at hempty
    subst hts
    have hnone : r.rating.isNone = false := ratingOk_isNone r.rating hrating
    have hlist : tagListOf r.tags = ([] : List String) := by
      rw [htags]
      rfl
    have hpp : postPlugin db r = (dbAfterPluginInsert db r,
        some (Resp.createdPlugin "Plugin successfully added (no tags)." db.pluginsNext)) := by
      unfold postPlugin
      rw [hname, hauthor, hversion, hnone, hrating, hlist]
      rfl
    rw [hpp]
    refine ⟨hTnn, ?_, ?_, ?_, hPT⟩
    · intro nm
      constructor
      · exact Or.inl
      · rintro (h | h)
        · exact h
        · cases h
    · intro nm hm
      cases hm
    · show ((db.pluginTags.filter fun pr => pr.1 == db.pluginsNext).length = _)
      rw [List.filter_eq_nil_iff.mpr ?_]
      · rfl
      · intro pr hpr
        have := hPTfresh pr hpr
        simpa using this
  · have hempty2 : ts.isEmpty = false := by
      revert hempty
      cases ts.isEmpty <;> simp
    obtain ⟨hftags, hfnodup, hfmem⟩ :=
      postPlugin_final db r ts hname hauthor hversion hrating htags hempty2
    obtain ⟨⟨ext2, hext2⟩, P2, P3, P4, P5, P6, P7, P8⟩ :=
      pipelineT_spec (dbAfterPluginInsert db r) db.pluginsNext hpid
        (trimmedNames ts) (dbAfterPluginInsert db r).tags
        (dbAfterPluginInsert db r).tagsNext ⟨[], (List.append_nil _).symm⟩
        hTnn hTni hTb hTnx
    have hpres : ∀ nm ∈ trimmedNames ts,
        ∃ t ∈ (pipelineT (dbAfterPluginInsert db r) db.pluginsNext
          (dbAfterPluginInsert db r).tags (dbAfterPluginInsert db r).tagsNext
          (trimmedNames ts)).1.1, t.name = nm := by
      intro nm hm
      cases hsn : findTag (dbAfterPluginInsert db r) nm with
      | some i =>
        refine (P6 nm).mpr (Or.inl ?_)
        refine (findTagT_isSome_iff _ nm).mp ?_
        rw [show findTagT (dbAfterPluginInsert db r).tags nm =
          findTag (dbAfterPluginInsert db r) nm from rfl, hsn]
        rfl
      | none => exact (P6 nm).mpr (Or.inr ⟨hm, hsn⟩)
    refine ⟨?_, ?_, ?_, ?_, hfnodup hPT⟩
    · rw [hftags]
      exact P2
    · intro nm
      rw [hftags]
      constructor
      · intro h
        obtain ⟨t, ht, htn⟩ := List.mem_map.mp h
        rcases (P6 nm).mp ⟨t, ht, htn⟩ with hl | ⟨hm, _⟩
        · left
          obtain ⟨t2, ht2, htn2⟩ := hl
          exact List.mem_map.mpr ⟨t2, ht2, htn2⟩
        · right
          exact List.mem_dedup.mpr hm
      · intro h
        rcases h with h | h
        · obtain ⟨t, ht, htn⟩ := List.mem_map.mp h
          obtain ⟨t2, ht2, htn2⟩ := (P6 nm).mpr (Or.inl ⟨t, ht, htn⟩)
          exact List.mem_map.mpr ⟨t2, ht2, htn2⟩
        · obtain ⟨t2, ht2, htn2⟩ := hpres nm (List.mem_dedup.mp h)
          exact List.mem_map.mpr ⟨t2, ht2, htn2⟩
    · intro nm hmD
      rw [hftags]
      obtain ⟨t, ht, htn⟩ := hpres nm (List.mem_dedup.mp hmD)
      exact count_one_of_nodup_mem _ nm P2 (List.mem_map.mpr ⟨t, ht, htn⟩)
    · have hfnd : (postPlugin db r).1.pluginTags.Nodup := hfnodup hPT
      have hmemiff : ∀ pr : Nat × Nat,
          pr ∈ (postPlugin db r).1.pluginTags.filter
            (fun x => x.1 == db.pluginsNext) ↔
          pr ∈ (trimmedNames ts).dedup.map
            (fun nm => (db.pluginsNext,
              idOfName (pipelineT (dbAfterPluginInsert db r) db.pluginsNext
                (dbAfterPluginInsert db r).tags (dbAfterPluginInsert db r).tagsNext
                (trimmedNames ts)).1.1 nm)) := by
        intro pr
        rw [List.mem_filter]
        constructor
        · rintro ⟨hmem, hfst⟩
          rcases (hfmem pr).mp hmem with h | h
          · exfalso
            have hne := hPTfresh pr h
            have : pr.1 = db.pluginsNext := by simpa using hfst
            exact hne this
          · obtain ⟨nm, hm, rfl⟩ := P7 pr h
            exact List.mem_map.mpr ⟨nm, List.mem_dedup.mpr hm, rfl⟩
        · intro hL
          obtain ⟨nm, hmD, rfl⟩ := List.mem_map.mp hL
          have hm := List.mem_dedup.mp hmD
          have hcond : (findTag (dbAfterPluginInsert db r) nm).isSome = true ∨
              ¬∃ t ∈ (dbAfterPluginInsert db r).tags, t.name = nm := by
            cases hsn : findTag (dbAfterPluginInsert db r) nm with
            | some i =>
              left
              rfl
            | none =>
              right
              rintro ⟨t, ht, htn⟩
              exact (findTagT_none_iff (dbAfterPluginInsert db r).tags nm).mp hsn
                t ht htn
          refine ⟨(hfmem _).mpr (Or.inr (P8 nm hm hcond)), ?_⟩
          simp
      have hLnodup : ((trimmedNames ts).dedup.map
          (fun nm => (db.pluginsNext,
            idOfName (pipelineT (dbAfterPluginInsert db r) db.pluginsNext
              (dbAfterPluginInsert db r).tags (dbAfterPluginInsert db r).tagsNext
              (trimmedNames ts)).1.1 nm))).Nodup := by
        refine List.Nodup.map_on ?_ (List.nodup_dedup _)
        intro x hx y hy hxy
        have hid : idOfName (pipelineT (dbAfterPluginInsert db r) db.pluginsNext
            (dbAfterPluginInsert db r).tags (dbAfterPluginInsert db r).tagsNext
            (trimmedNames ts)).1.1 x =
          idOfName (pipelineT (dbAfterPluginInsert db r) db.pluginsNext
            (dbAfterPluginInsert db r).tags (dbAfterPluginInsert db r).tagsNext
            (trimmedNames ts)).1.1 y := by
          have := congrArg Prod.snd hxy
          simpa using this
        exact idOfName_inj _ P3 x y (hpres x (List.mem_dedup.mp hx))
          (hpres y (List.mem_dedup.mp hy)) hid
      have hperm := (List.perm_ext_iff_of_nodup (hfnd.filter _) hLnodup).mpr hmemiff
      rw [hperm.length_eq, List.length_map]

theorem C3_witness :
    ((((postPlugin DB.empty reqC3).1.tags.map fun t => t.name).Nodup) ∧
     (∀ nm, nm ∈ (postPlugin DB.empty reqC3).1.tags.map (fun t => t.name) ↔
       (nm ∈ DB.empty.tags.map (fun t => t.name) ∨
         nm ∈ (trimmedNames ["ui", "ui", "debug"]).dedup)) ∧
     (∀ nm ∈ (trimmedNames ["ui", "ui", "debug"]).dedup,
       ((postPlugin DB.empty reqC3).1.tags.filter fun t => t.name == nm).length = 1) ∧
     (((postPlugin DB.empty reqC3).1.pluginTags.filter
         fun pr => pr.1 == DB.empty.pluginsNext).length =
       (trimmedNames ["ui", "ui", "debug"]).dedup.length) ∧
     (postPlugin DB.empty reqC3).1.pluginTags.Nodup) ∧
    ((postPlugin (postPlugin DB.empty (reqDebug "P1")).1 (reqDebug "P2")).1.tags =
       [⟨1, "debug"⟩] ∧
     (postPlugin (postPlugin DB.empty (reqDebug "P1")).1 (reqDebug "P2")).1.pluginTags =
       [(1, 1), (2, 1)] ∧
     (postPlugin DB.empty (reqDebug "P1")).2 =
       some (Resp.createdPlugin "Plugin successfully added" 1) ∧
     (postPlugin (postPlugin DB.empty (reqDebug "P1")).1 (reqDebug "P2")).2 =
       some (Resp.createdPlugin "Plugin successfully added" 2)) :=
  C3_distinct_tags DB.empty reqC3 ["ui", "ui", "debug"]
    (by decide) (by decide) (by decide) (by decide) rfl
    (by decide) (by decide) (by intro t ht; cases ht) (by decide)
    (by decide) (by intro pr hpr; cases hpr) (by decide)

end Hub
